import Mathlib

/-!
Verification of the plashboard template-driven dashboard publishing runtime.

The development shallowly embeds the pipeline core:
  * the JSON document model and the RFC-6901 pointer engine
    (src/plugin/src/json-pointer.ts),
  * the merge engine and field-value checks (src/plugin/src/merge.ts),
  * the mock fill runner (src/plugin/src/fill-runner.ts),
  * the single-run executor with its retry/repair loops, the scheduler
    tick, and the template CRUD state transitions
    (src/plugin/src/runtime.ts, src/plugin/src/stores.ts).

Modelling conventions:
  * JSON numbers are modelled as integers (the claims under study never
    depend on fractional or non-finite values).
  * JavaScript objects are association lists; key lookup takes the first
    occurrence, and assignment of an existing key keeps its position.
  * `deepClone` is `JSON.parse(JSON.stringify(v))`, the identity on the
    JSON values modelled here, so cloning is dropped.
  * Effectful steps of a run (fill runner, merge + validate-only +
    snapshot, state reload, publish) are driven by explicit oracles
    indexed by the attempt and repair loop counters, and clock reads come
    from an explicit clock sequence; the executor records a trace of its
    observable calls.
-/

namespace Plashboard

/-- A JSON document value: the in-memory shape of `base_dashboard` and of
all pointer-addressed data. Numbers are modelled as integers. -/
inductive Json where
  | null
  | bool (b : Bool)
  | num (n : Int)
  | str (s : String)
  | arr (items : List Json)
  | obj (members : List (String × Json))

/-- JavaScript object key lookup (`record[token]`): first matching key. -/
def Json.lookupKey : List (String × Json) → String → Option Json
  | [], _ => none
  | (k, v) :: rest, key => if k = key then some v else Json.lookupKey rest key

/-- JavaScript assignment to an existing key: the value is replaced in
place, the key keeps its position. -/
def Json.setKey : List (String × Json) → String → Json → List (String × Json)
  | [], _, _ => []
  | (k, v) :: rest, key, value =>
    if k = key then (k, value) :: rest else (k, v) :: Json.setKey rest key value

/-- JavaScript `record[key] = value` on a plain object: replace the value
when the key exists, append the key otherwise. -/
def recordSet (values : List (String × Json)) (key : String) (v : Json) :
    List (String × Json) :=
  if (Json.lookupKey values key).isSome then Json.setKey values key v
  else values ++ [(key, v)]

/-- Left-to-right non-overlapping replacement of `~1` by `/` on the token
characters, as `replaceAll` performs it. -/
def decodeSlash : List Char → List Char
  | [] => []
  | '~' :: '1' :: rest => '/' :: decodeSlash rest
  | c :: rest => c :: decodeSlash rest

/-- Left-to-right non-overlapping replacement of `~0` by `~` on the token
characters, as `replaceAll` performs it. -/
def decodeTilde : List Char → List Char
  | [] => []
  | '~' :: '0' :: rest => '~' :: decodeTilde rest
  | c :: rest => c :: decodeTilde rest

/-- RFC 6901 token decoding: first `~1` becomes `/`, then `~0` becomes `~`
(json-pointer.ts, decodeToken). -/
def decodeToken (token : String) : String :=
  String.mk (decodeTilde (decodeSlash token.toList))

/-- JavaScript `split('/')` on the character list: always yields at least
one (possibly empty) part. -/
def splitSlash : List Char → List (List Char)
  | [] => [[]]
  | c :: cs =>
    if c = '/' then [] :: splitSlash cs
    else
      match splitSlash cs with
      | [] => [[c]]
      | part :: parts => (c :: part) :: parts

/-- Pointer parsing (json-pointer.ts, parsePointer): must start with `/`;
the lone pointer `/` denotes the single empty token; otherwise the rest is
split on `/` and each token is decoded. -/
def parsePointer (pointer : String) : Except String (List String) :=
  if pointer.toList.head? = some '/' then
    if pointer.toList.tail = [] then .ok [""]
    else .ok ((splitSlash pointer.toList.tail).map (fun cs => decodeToken (String.mk cs)))
  else .error ("invalid pointer: " ++ pointer)

/-- A token is an array index when it is a nonempty digit string
(json-pointer.ts, isArrayIndex matching the regex of one or more digits). -/
def isArrayIndex (token : String) : Bool :=
  !token.toList.isEmpty && token.toList.all Char.isDigit

/-- `Number(token)` for a token that passed `isArrayIndex`: the decimal
value of the digit string. -/
def tokenToNat (token : String) : Nat :=
  token.toList.foldl (fun acc c => acc * 10 + (c.toNat - '0'.toNat)) 0

/-- The walking core of `readPointer`: arrays demand numeric in-range
tokens, objects demand existing keys, anything else fails. -/
def readTokens (pointer : String) : Json → List String → Except String Json
  | cursor, [] => .ok cursor
  | cursor, token :: rest =>
    match cursor with
    | .arr items =>
      if !isArrayIndex token then
        .error ("pointer token must be numeric for array: " ++ pointer)
      else
        let index := tokenToNat token
        if h : index < items.length then
          readTokens pointer (items.get ⟨index, h⟩) rest
        else .error ("array index out of range for pointer: " ++ pointer)
    | .obj members =>
      match Json.lookupKey members token with
      | some v => readTokens pointer v rest
      | none => .error ("pointer path not found: " ++ pointer)
    | _ => .error ("pointer path not found: " ++ pointer)

/-- `readPointer(doc, pointer)` (json-pointer.ts). -/
def readPointer (root : Json) (pointer : String) : Except String Json := do
  let tokens ← parsePointer pointer
  readTokens pointer root tokens

/-- The final step of `writePointer`: the last token must resolve to an
existing key or an existing in-range index; the slot is overwritten. -/
def writeLast (pointer : String) (value : Json) (cursor : Json) (last : String) :
    Except String Json :=
  match cursor with
  | .arr items =>
    if !isArrayIndex last then
      .error ("pointer token must be numeric for array: " ++ pointer)
    else
      let index := tokenToNat last
      if index < items.length then .ok (.arr (items.set index value))
      else .error ("array index out of range for pointer: " ++ pointer)
  | .obj members =>
    match Json.lookupKey members last with
    | some _ => .ok (.obj (Json.setKey members last value))
    | none => .error ("pointer path not found: " ++ pointer)
  | _ => .error ("pointer path not found: " ++ pointer)

/-- The parent walk of `writePointer`, rebuilding the document along the
path; the head token plus the remaining tokens form the pointer path. -/
def writeTokens (pointer : String) (value : Json) :
    Json → String → List String → Except String Json
  | cursor, token, [] => writeLast pointer value cursor token
  | cursor, token, next :: rest =>
    match cursor with
    | .arr items =>
      if !isArrayIndex token then
        .error ("pointer token must be numeric for array: " ++ pointer)
      else
        let index := tokenToNat token
        if h : index < items.length then
          (writeTokens pointer value (items.get ⟨index, h⟩) next rest).map
            (fun child => .arr (items.set index child))
        else .error ("array index out of range for pointer: " ++ pointer)
    | .obj members =>
      match Json.lookupKey members token with
      | some v =>
        (writeTokens pointer value v next rest).map
          (fun child => .obj (Json.setKey members token child))
      | none => .error ("pointer path not found: " ++ pointer)
    | _ => .error ("pointer path not found: " ++ pointer)

/-- `writePointer(doc, pointer, value)` (json-pointer.ts), returning the
updated document in place of the TypeScript in-place mutation. -/
def writePointer (root : Json) (pointer : String) (value : Json) :
    Except String Json :=
  match parsePointer pointer with
  | .error e => .error e
  | .ok [] => .error ("invalid pointer: " ++ pointer)
  | .ok (t :: ts) => writeTokens pointer value root t ts

/-- The shape of the top node of a document: scalar, array length, or
object key list. Used to state which container shapes a write preserves. -/
inductive TopShape where
  | scalar
  | arrayLen (n : Nat)
  | objKeys (keys : List String)
deriving DecidableEq, Repr

/-- Observe the top-level shape of a document. -/
def Json.topShape : Json → TopShape
  | .arr items => .arrayLen items.length
  | .obj members => .objKeys (members.map (fun kv => kv.1))
  | _ => .scalar

/-- Boolean path-prefix test on token lists. -/
def isPathLe : List String → List String → Bool
  | [], _ => true
  | _ :: _, [] => false
  | a :: as, b :: bs => a == b && isPathLe as bs

/-- Declared field type (types.ts, FillFieldType). -/
inductive FieldType where
  | string
  | number
  | boolean
  | array
deriving DecidableEq, Repr

/-- An entry of a field constraint `enum` (types.ts restricts entries to
string, number, or boolean). -/
inductive EnumEntry where
  | str (s : String)
  | num (n : Int)
  | bool (b : Bool)
deriving DecidableEq, Repr

/-- Field constraints (types.ts, FieldConstraints); `none` models an
absent (undefined) key. -/
structure FieldConstraints where
  max_len : Option Int := none
  min : Option Int := none
  max : Option Int := none
  enumVals : Option (List EnumEntry) := none
  min_items : Option Int := none
  max_items : Option Int := none
deriving DecidableEq, Repr

/-- A field spec (types.ts, FieldSpec). `required = none` models the
undefined default. -/
structure FieldSpec where
  id : String
  pointer : String
  type : FieldType
  prompt : String := ""
  required : Option Bool := none
  constraints : Option FieldConstraints := none

/-- JavaScript `enum.includes(value)` under strict equality: a scalar value
matches an entry of the same primitive type and content; arrays and
objects never match. -/
def enumIncludes (es : List EnumEntry) (v : Json) : Bool :=
  es.any (fun e =>
    match e, v with
    | .str s, .str t => s == t
    | .num n, .num m => n == m
    | .bool a, .bool b => a == b
    | _, _ => false)

/-- The per-field type check of `assertFieldValue` (merge.ts) for a
present non-null value: exactly one declared-type branch applies. Note the
JavaScript truthiness test on `max_len`: the length check is skipped when
`max_len` is absent or zero. -/
def checkFieldType (f : FieldSpec) (v : Json) : Except String Unit :=
  match f.type with
  | .string =>
    match v with
    | .str s =>
      match (f.constraints.getD {}).max_len with
      | some m =>
        if m ≠ 0 ∧ (s.length : Int) > m then
          .error ("field " ++ f.id ++ " exceeds max_len=" ++ toString m)
        else .ok ()
      | none => .ok ()
    | _ => .error ("field " ++ f.id ++ " expects string")
  | .number =>
    match v with
    | .num n => do
      (match (f.constraints.getD {}).min with
       | some m =>
         if n < m then .error ("field " ++ f.id ++ " below min=" ++ toString m)
         else .ok ()
       | none => .ok ())
      match (f.constraints.getD {}).max with
      | some m =>
        if n > m then .error ("field " ++ f.id ++ " above max=" ++ toString m)
        else .ok ()
      | none => .ok ()
    | _ => .error ("field " ++ f.id ++ " expects number")
  | .boolean =>
    match v with
    | .bool _ => .ok ()
    | _ => .error ("field " ++ f.id ++ " expects boolean")
  | .array =>
    match v with
    | .arr items => do
      (match (f.constraints.getD {}).min_items with
       | some m =>
         if (items.length : Int) < m then
           .error ("field " ++ f.id ++ " requires at least " ++ toString m ++ " items")
         else .ok ()
       | none => .ok ())
      match (f.constraints.getD {}).max_items with
      | some m =>
        if (items.length : Int) > m then
          .error ("field " ++ f.id ++ " allows at most " ++ toString m ++ " items")
        else .ok ()
      | none => .ok ()
    | _ => .error ("field " ++ f.id ++ " expects array")

/-- `assertFieldValue(field, value)` (merge.ts): `none` models an
undefined lookup; absent or null values only face the required check, a
present value faces the type branch and then the enum membership test
(an empty enum array is truthy and rejects everything). -/
def assertFieldValue (f : FieldSpec) (value : Option Json) : Except String Unit :=
  let required := f.required ≠ some false
  match value with
  | none => if required then .error ("missing required value for field " ++ f.id) else .ok ()
  | some .null => if required then .error ("missing required value for field " ++ f.id) else .ok ()
  | some v => do
    checkFieldType f v
    match (f.constraints.getD {}).enumVals with
    | some es =>
      if enumIncludes es v then .ok ()
      else .error ("field " ++ f.id ++ " value not in enum")
    | none => .ok ()

/-- The slice of a dashboard template that the merge engine consumes
(types.ts, DashboardTemplate): schedule, context, and run parameters are
modelled where they are used (scheduler and run executor). -/
structure TemplateM where
  id : String
  name : String := ""
  base_dashboard : Json
  fields : List FieldSpec

/-- The loop of `validateFieldPointers` (merge.ts): duplicate field ids,
then duplicate pointers, then pointer resolution, in field order. -/
def validatePointersLoop (base : Json) :
    List FieldSpec → List String → List String → Except String Unit
  | [], _, _ => .ok ()
  | f :: rest, seenIds, seenPtrs =>
    if f.id ∈ seenIds then .error ("duplicate field id: " ++ f.id)
    else if f.pointer ∈ seenPtrs then .error ("duplicate field pointer: " ++ f.pointer)
    else do
      let _ ← readPointer base f.pointer
      validatePointersLoop base rest (f.id :: seenIds) (f.pointer :: seenPtrs)

/-- `validateFieldPointers(template)` (merge.ts). -/
def validateFieldPointers (t : TemplateM) : Except String Unit :=
  validatePointersLoop t.base_dashboard t.fields [] []

/-- The unknown-key gate of `mergeTemplateValues`: every key of the values
record must be a declared field id. -/
def checkKnownIds (known : List String) : List (String × Json) → Except String Unit
  | [] => .ok ()
  | (k, _) :: rest =>
    if k ∈ known then checkKnownIds known rest
    else .error ("unknown field id in fill response: " ++ k)

/-- The per-field loop of `mergeTemplateValues`: check the value, then
write it at the pointer unless it is absent or null. -/
def mergeLoop (values : List (String × Json)) :
    Json → List FieldSpec → Except String Json
  | doc, [] => .ok doc
  | doc, f :: rest => do
    assertFieldValue f (Json.lookupKey values f.id)
    match Json.lookupKey values f.id with
    | none => mergeLoop values doc rest
    | some .null => mergeLoop values doc rest
    | some v => do
      let doc2 ← writePointer doc f.pointer v
      mergeLoop values doc2 rest

/-- `mergeTemplateValues(template, values)` (merge.ts): the clone of the
base document is implicit since the model is pure. -/
def mergeTemplateValues (t : TemplateM) (values : List (String × Json)) :
    Except String Json := do
  checkKnownIds (t.fields.map (fun f => f.id)) values
  mergeLoop values t.base_dashboard t.fields

/-- The loop of `collectCurrentValues`: read every field pointer off the
base document, keyed by field id with object-assignment semantics. -/
def collectLoop (base : Json) :
    List FieldSpec → List (String × Json) → Except String (List (String × Json))
  | [], acc => .ok acc
  | f :: rest, acc => do
    let v ← readPointer base f.pointer
    collectLoop base rest (recordSet acc f.id v)

/-- `collectCurrentValues(template)` (merge.ts). -/
def collectCurrentValues (t : TemplateM) : Except String (List (String × Json)) :=
  collectLoop t.base_dashboard t.fields []

/-- `mockValue(type, currentValue, fieldId)` (fill-runner.ts), with the
timestamp passed explicitly: number, boolean, and array fields keep a
type-compatible current value and fall back to a type default; every other
declared type — including string — yields the synthetic timestamped
string. -/
def mockValue (type : FieldType) (currentValue : Option Json) (fieldId : String)
    (now : String) : Json :=
  match type with
  | .number =>
    match currentValue with
    | some (.num n) => .num n
    | _ => .num 0
  | .boolean =>
    match currentValue with
    | some (.bool b) => .bool b
    | _ => .bool false
  | .array =>
    match currentValue with
    | some (.arr items) => .arr items
    | _ => .arr []
  | .string => .str ("updated " ++ fieldId ++ " at " ++ now)

/-- `MockFillRunner.run` (fill-runner.ts): builds the values record field
by field; a total function, so the mock runner never fails. -/
def mockRun (fields : List FieldSpec) (currentValues : List (String × Json))
    (now : String) : List (String × Json) :=
  fields.foldl
    (fun acc f => recordSet acc f.id (mockValue f.type (Json.lookupKey currentValues f.id) f.id now))
    []

/-- Run trigger (types.ts, RunArtifact.trigger). -/
inductive Trigger where
  | schedule
  | manual
deriving DecidableEq, Repr

/-- Run status (types.ts, RunArtifact.status). -/
inductive RunStatus where
  | success
  | failed
deriving DecidableEq, Repr

/-- The run artifact written at pipeline end (types.ts, RunArtifact);
timestamps are epoch milliseconds drawn from the modelled clock. -/
structure RunArtifact where
  template_id : String
  trigger : Trigger
  status : RunStatus
  started_at : Nat
  finished_at : Nat
  duration_ms : Int
  attempt_count : Nat
  published : Bool
  errors : List String
deriving DecidableEq, Repr

/-- Observable calls of one run, tagged with the zero-based attempt and
repair loop counters of `executeTemplateRun`. -/
inductive RunEvent where
  | fillCall (attempt repair : Nat) (hint : Option String)
  | reload (attempt repair : Nat) (active : Option String)
  | publishCall (attempt repair : Nat) (ok : Bool)
  | sleepBackoff (ms : Nat)
deriving DecidableEq, Repr

/-- Outcome of one fill-runner invocation: either the runner throws, or it
returns a response whose shape validation yields the given error list
(empty means the shape is valid). -/
inductive FillOutcome where
  | throws (msg : String)
  | resp (shapeErrors : List String)
deriving DecidableEq, Repr

/-- The environment of one `executeTemplateRun` invocation: the template
and trigger, the raw run parameters (before the `max(0, ·)` clamp), and
the oracles for the fill runner, the merge + validate-only + snapshot
prefix of the pipeline, the `active_template_id` seen at the state reload
before the publish decision, and the publish call — each indexed by the
attempt and repair counters. `now` is the clock sequence; state saves and
the current-value snapshot are modelled as non-failing. -/
structure RunEnv where
  templateId : String
  trigger : Trigger
  retryCountRaw : Int
  repairAttemptsRaw : Int
  fill : Nat → Nat → FillOutcome
  pipe : Nat → Nat → Except String Unit
  activeAt : Nat → Nat → Option String
  publishResult : Nat → Nat → Except String Unit
  backoffMs : Nat
  now : Nat → Nat

/-- Exit of the repair loop of one attempt: a success (carrying the
published flag and the `active_template_id` observed at the reload of the
succeeding iteration) or an exception reaching the attempt-level catch. -/
inductive RepairExit where
  | success (published : Bool) (active : Option String)
  | thrown (msg : String)
deriving DecidableEq, Repr

/-- The repair loop of `executeTemplateRun` (runtime.ts), with the loop
condition `repair < repairAttempts` carried as the count `left` of repair
iterations still available (`left = repairAttempts - r`), so the recursion
is structural. The fill call and the shape-validation throw sit outside
the inner try, so their failures reach the attempt-level catch directly;
only failures of the merge/validate/snapshot prefix and of publish are
caught, and they re-invoke the fill runner with the message as hint while
iterations remain. -/
def repairSteps (env : RunEnv) (a : Nat) : Nat → Nat → Option String →
    RepairExit × List RunEvent
  | 0, r, hint =>
    let ev := RunEvent.fillCall a r hint
    match env.fill a r with
    | .throws msg => (.thrown msg, [ev])
    | .resp shapeErrors =>
      if shapeErrors ≠ [] then (.thrown (String.intercalate "; " shapeErrors), [ev])
      else
        match env.pipe a r with
        | .error msg => (.thrown msg, [ev])
        | .ok _ =>
          let active := env.activeAt a r
          if active = some env.templateId then
            match env.publishResult a r with
            | .ok _ =>
              (.success true active, [ev, .reload a r active, .publishCall a r true])
            | .error msg =>
              (.thrown msg, [ev, .reload a r active, .publishCall a r false])
          else (.success false active, [ev, .reload a r active])
  | left2 + 1, r, hint =>
    let ev := RunEvent.fillCall a r hint
    match env.fill a r with
    | .throws msg => (.thrown msg, [ev])
    | .resp shapeErrors =>
      if shapeErrors ≠ [] then (.thrown (String.intercalate "; " shapeErrors), [ev])
      else
        match env.pipe a r with
        | .error msg =>
          let next := repairSteps env a left2 (r + 1) (some msg)
          (next.1, ev :: next.2)
        | .ok _ =>
          let active := env.activeAt a r
          if active = some env.templateId then
            match env.publishResult a r with
            | .ok _ =>
              (.success true active, [ev, .reload a r active, .publishCall a r true])
            | .error msg =>
              let next := repairSteps env a left2 (r + 1) (some msg)
              (next.1, [ev, .reload a r active, .publishCall a r false] ++ next.2)
          else (.success false active, [ev, .reload a r active])

/-- Result of the attempt loop: final status, published flag, attempt
count, accumulated error messages, and the reload observation of the
succeeding iteration when the run succeeded. -/
structure AttemptResult where
  status : RunStatus
  published : Bool
  attemptCount : Nat
  errors : List String
  successActive : Option (Option String)
deriving DecidableEq, Repr

/-- The retry loop of `executeTemplateRun` (runtime.ts), with the loop
condition `attempt < retryCount` carried as the count `left` of retries
still available (`left = retryCount - a`): each attempt runs the repair
loop with a fresh hint; an uncaught failure consumes a retry and sleeps
the backoff while retries remain. -/
def attemptSteps (env : RunEnv) (repairAttempts : Nat) : Nat → Nat → List String →
    AttemptResult × List RunEvent
  | 0, a, errors =>
    match repairSteps env a repairAttempts 0 none with
    | (.success published active, tr) =>
      ({ status := .success, published, attemptCount := a + 1, errors,
         successActive := some active }, tr)
    | (.thrown msg, tr) =>
      ({ status := .failed, published := false, attemptCount := a + 1,
         errors := errors ++ [msg], successActive := none }, tr)
  | left2 + 1, a, errors =>
    match repairSteps env a repairAttempts 0 none with
    | (.success published active, tr) =>
      ({ status := .success, published, attemptCount := a + 1, errors,
         successActive := some active }, tr)
    | (.thrown msg, tr) =>
      let next := attemptSteps env repairAttempts left2 (a + 1) (errors ++ [msg])
      (next.1, tr ++ [.sleepBackoff env.backoffMs] ++ next.2)

/-- Result of one `executeTemplateRun` invocation: the artifact handed to
`persistRunArtifact`, the observable trace, the in-flight set while the
run body executed, and the in-flight set after the `finally` clause. -/
structure RunResult where
  artifact : RunArtifact
  trace : List RunEvent
  inFlightDuring : List String
  inFlightAfter : List String
  successActive : Option (Option String)
deriving DecidableEq, Repr

/-- `executeTemplateRun(template, trigger)` (runtime.ts): a template found
in flight yields the conflict failure artifact before any work; otherwise
the id is added to the in-flight set, the retry/repair loops run, and the
`finally` clause removes the id. The artifact timestamps are the first and
last clock observations. -/
def executeTemplateRun (env : RunEnv) (running : List String) : RunResult :=
  if env.templateId ∈ running then
    let now := env.now 0
    { artifact :=
        { template_id := env.templateId, trigger := env.trigger, status := .failed,
          started_at := now, finished_at := now, duration_ms := 0,
          attempt_count := 0, published := false,
          errors := ["template run already in progress"] },
      trace := [], inFlightDuring := running, inFlightAfter := running,
      successActive := none }
  else
    let startedAt := env.now 0
    let retryCount := env.retryCountRaw.toNat
    let repairAttempts := env.repairAttemptsRaw.toNat
    let res := attemptSteps env repairAttempts retryCount 0 []
    let finishedAt := env.now 1
    { artifact :=
        { template_id := env.templateId, trigger := env.trigger,
          status := res.1.status, started_at := startedAt,
          finished_at := finishedAt,
          duration_ms := (finishedAt : Int) - (startedAt : Int),
          attempt_count := res.1.attemptCount, published := res.1.published,
          errors := res.1.errors },
      trace := res.2, inFlightDuring := running ++ [env.templateId],
      inFlightAfter := running, successActive := res.1.successActive }

/-- `runNow(templateId)` (runtime.ts): looks the template up and calls
`executeAndPersist` directly — the per-template in-flight check inside
`executeTemplateRun` is the only concurrency gate on this path; the
`max_parallel_runs` bound is never consulted. -/
def runNowModel (templates : List String) (env : RunEnv) (running : List String) :
    Option RunResult :=
  if env.templateId ∈ templates then some (executeTemplateRun env running) else none

/-- Per-template run state timestamps as parsed milliseconds
(types.ts, TemplateRunState): `none` models a missing or unparseable
timestamp. -/
structure RunStateEntry where
  lastAttemptMs : Option Nat := none
  lastSuccessMs : Option Nat := none
deriving DecidableEq, Repr

/-- `resolveLastAttemptMs(state, templateId)` (runtime.ts): the maximum of
the timestamps that parse, or `none` when both are missing or invalid. -/
def resolveLastAttemptMs (entry : Option RunStateEntry) : Option Nat :=
  match entry with
  | none => none
  | some e =>
    match e.lastAttemptMs, e.lastSuccessMs with
    | none, none => none
    | some a, none => some a
    | none, some b => some b
    | some a, some b => some (max a b)

/-- The slice of a template the scheduler tick reads. -/
structure TickTemplate where
  id : String
  enabled : Bool
  everyMinutes : Nat
deriving DecidableEq, Repr

/-- The per-template loop of `tickScheduler` (runtime.ts): disabled or
in-flight templates are skipped, the loop breaks once the in-flight count
reaches `max_parallel_runs`, and each due template is started — the start
adds its id to the in-flight set synchronously before the next loop
iteration. -/
def tickLoop (maxParallel : Nat) (now : Nat) (stateRuns : String → Option RunStateEntry) :
    List TickTemplate → List String → List String
  | [], running => running
  | t :: rest, running =>
    if !t.enabled then tickLoop maxParallel now stateRuns rest running
    else if t.id ∈ running then tickLoop maxParallel now stateRuns rest running
    else if running.length ≥ maxParallel then running
    else
      let due :=
        match resolveLastAttemptMs (stateRuns t.id) with
        | none => true
        | some last => now ≥ last + t.everyMinutes * 60000
      if due then tickLoop maxParallel now stateRuns rest (running ++ [t.id])
      else tickLoop maxParallel now stateRuns rest running

/-- The admin-visible persistent state for template CRUD: the set of
stored template ids and the active pointer (stores.ts, runtime.ts). -/
structure AdminState where
  templates : List String
  active : Option String
deriving DecidableEq, Repr

/-- Lexicographic character-list comparison used to model ascending id
order. -/
def lexLe : List Char → List Char → Bool
  | [], _ => true
  | _ :: _, [] => false
  | a :: as, b :: bs =>
    if a = b then lexLe as bs else decide (a < b)

/-- Ascending string order on ids. -/
def idLe (a b : String) : Bool :=
  lexLe a.toList b.toList

/-- Sorted insertion for `sortIds`. -/
def insertSorted (x : String) : List String → List String
  | [] => [x]
  | y :: ys => if idLe x y then x :: y :: ys else y :: insertSorted x ys

/-- `TemplateStore.list` order (stores.ts): ascending by id. -/
def sortIds : List String → List String
  | [] => []
  | x :: xs => insertSorted x (sortIds xs)

/-- `templateCreate(payload)` (runtime.ts) restricted to its state
transition: reject an existing id, reject an invalid template (validation
abstracted by the `valid` oracle), otherwise store the template and adopt
it as active when no template is active. -/
def templateCreate (valid : String → Bool) (s : AdminState) (id : String) :
    AdminState × Bool :=
  if id ∈ s.templates then (s, false)
  else if !valid id then (s, false)
  else
    let stored : AdminState := { s with templates := s.templates ++ [id] }
    if stored.active = none then ({ stored with active := some id }, true)
    else (stored, true)

/-- `templateDelete(templateId)` (runtime.ts): missing ids are rejected;
otherwise the file is removed and, when the deleted template was active,
the active pointer moves to the first remaining template in ascending id
order, or null when none remain. -/
def templateDelete (s : AdminState) (id : String) : AdminState × Bool :=
  if id ∈ s.templates then
    let remaining := s.templates.erase id
    if s.active = some id then
      ({ templates := remaining, active := (sortIds remaining).head? }, true)
    else ({ templates := remaining, active := s.active }, true)
  else (s, false)

/-- Well-formedness of the admin state: the active pointer is null or
names a stored template. -/
def AdminWF (s : AdminState) : Prop :=
  s.active = none ∨ ∃ a, s.active = some a ∧ a ∈ s.templates

/-- Type compatibility as the mock runner tests it: the `typeof` and
`Array.isArray` guards of `mockValue`. -/
def typeCompatible : FieldType → Json → Bool
  | .number, .num _ => true
  | .boolean, .bool _ => true
  | .array, .arr _ => true
  | .string, .str _ => true
  | _, _ => false

/-- The type-default placeholder the mock runner falls back to. -/
def typeDefault : FieldType → String → String → Json
  | .number, _, _ => .num 0
  | .boolean, _, _ => .bool false
  | .array, _, _ => .arr []
  | .string, fieldId, now => .str ("updated " ++ fieldId ++ " at " ++ now)

/-- Two pointer tokens address distinct slots in any container: they
differ as strings, and when both are numeric they also differ as decoded
indices (distinct digit strings such as `1` and `01` can alias the same
array slot). -/
def tokenApart (a b : String) : Bool :=
  (a != b) && (!(isArrayIndex a && isArrayIndex b) || tokenToNat a != tokenToNat b)

/-- Two token paths address disjoint subtrees: they agree up to some point
and then name provably distinct slots. -/
def pathsDiverge : List String → List String → Bool
  | [], _ => false
  | _, [] => false
  | a :: as, b :: bs => tokenApart a b || (a == b && pathsDiverge as bs)

/-- A sample run environment: mock-style fill, healthy pipeline, template
active, identity clock. -/
def baseEnv : RunEnv where
  templateId := "ops"
  trigger := .manual
  retryCountRaw := 0
  repairAttemptsRaw := 1
  fill := fun _ _ => .resp []
  pipe := fun _ _ => .ok ()
  activeAt := fun _ _ => some "ops"
  publishResult := fun _ _ => .ok ()
  backoffMs := 20000
  now := fun i => i

/-- A run environment whose first fill response fails shape validation,
with one retry and one repair iteration configured and no active
template. -/
def envShape : RunEnv :=
  { baseEnv with
    retryCountRaw := 1,
    fill := fun a _ => if a = 0 then .resp ["bad shape"] else .resp [],
    activeAt := fun _ _ => none }

/-- A run environment for template `b`, used to exercise `runNow` while
another template is in flight. -/
def envRunNow : RunEnv :=
  { baseEnv with templateId := "b" }

/-! ## Theorems -/

/-- C10: in merge-time constraint checking, a string field whose
constraints set `max_len = 0` is not length-checked — the JavaScript
truthiness test `constraints?.max_len && length > max_len` skips the
comparison — so any string is accepted (absent other constraints), while
every positive `max_len` rejects strictly longer values. -/
theorem max_len_zero_skips_length_check (f : FieldSpec) (c : FieldConstraints)
    (s : String) (hc : f.constraints = some c) (ht : f.type = .string)
    (he : c.enumVals = none) :
    (c.max_len = some 0 → assertFieldValue f (some (.str s)) = .ok ()) ∧
    (∀ m : Int, c.max_len = some m → 0 < m → (s.length : Int) > m →
      assertFieldValue f (some (.str s)) =
        .error ("field " ++ f.id ++ " exceeds max_len=" ++ toString m)) := by
  constructor
  · intro hm
    simp [assertFieldValue, checkFieldType, ht, hc, hm, he]
    rfl
  · intro m hm hpos hlen
    have hne : m ≠ 0 := by omega
    simp [assertFieldValue, checkFieldType, ht, hc, hm, he, hne, hlen]
    rfl

/-- Witness for C10 at a concrete field: `max_len = 0` accepts a six-char
string, `max_len = 2` rejects a three-char string. -/
theorem max_len_zero_skips_length_check_witness :
    assertFieldValue
      { id := "f", pointer := "/x", type := .string,
        constraints := some { max_len := some 0 } } (some (.str "abcdef")) = .ok () ∧
    assertFieldValue
      { id := "f", pointer := "/x", type := .string,
        constraints := some { max_len := some 2 } } (some (.str "abc")) =
      .error ("field " ++ "f" ++ " exceeds max_len=" ++ toString (2 : Int)) :=
  ⟨(max_len_zero_skips_length_check _ _ _ rfl rfl rfl).1 rfl,
   (max_len_zero_skips_length_check _ _ _ rfl rfl rfl).2 2 rfl (by norm_num)
     (by decide)⟩

/-- C7: the in-flight set is the per-template mutex of
`executeTemplateRun`: an invocation finding its template id present
returns the conflict failure artifact with an empty trace (no pipeline
work), while a normal run holds exactly its own id for its duration and
the finally clause restores the original set. -/
theorem inflight_mutex (env : RunEnv) (running : List String) :
    (env.templateId ∈ running →
      (executeTemplateRun env running).trace = [] ∧
      (executeTemplateRun env running).artifact.status = .failed ∧
      (executeTemplateRun env running).artifact.errors =
        ["template run already in progress"] ∧
      (executeTemplateRun env running).inFlightDuring = running ∧
      (executeTemplateRun env running).inFlightAfter = running) ∧
    (env.templateId ∉ running →
      env.templateId ∈ (executeTemplateRun env running).inFlightDuring ∧
      (executeTemplateRun env running).inFlightDuring =
        running ++ [env.templateId] ∧
      (executeTemplateRun env running).inFlightAfter = running) := by
  constructor
  · intro hmem
    simp [executeTemplateRun, hmem]
  · intro hmem
    simp [executeTemplateRun, hmem]

/-- Witness for C7: a run-now for `ops` while `ops` is already in flight
does no work and leaves the in-flight set untouched. -/
theorem inflight_mutex_witness :
    (executeTemplateRun baseEnv ["ops"]).trace = [] ∧
    (executeTemplateRun baseEnv ["ops"]).artifact.status = .failed ∧
    (executeTemplateRun baseEnv ["ops"]).artifact.errors =
      ["template run already in progress"] ∧
    (executeTemplateRun baseEnv ["ops"]).inFlightDuring = ["ops"] ∧
    (executeTemplateRun baseEnv ["ops"]).inFlightAfter = ["ops"] :=
  (inflight_mutex baseEnv ["ops"]).1 (by decide)

/-- The attempt counter of the retry loop is always at least one more
than the starting attempt index. -/
theorem attemptSteps_attemptCount (env : RunEnv) (R : Nat) :
    ∀ (left a : Nat) (errors : List String),
      a + 1 ≤ (attemptSteps env R left a errors).1.attemptCount := by
  intro left
  induction left with
  | zero =>
    intro a errors
    rcases h : repairSteps env a R 0 none with ⟨exit, tr⟩
    cases exit <;> simp [attemptSteps, h]
  | succ l ih =>
    intro a errors
    rcases h : repairSteps env a R 0 none with ⟨exit, tr⟩
    cases exit with
    | success p act => simp [attemptSteps, h]
    | thrown msg =>
      have := ih (a + 1) (errors ++ [msg])
      simp [attemptSteps, h]
      omega

/-- C1 counterexample: the failure artifact produced when a run is issued
while the same template is already in flight is persisted with
`attempt_count = 0`, refuting the claim that every persisted artifact has
`attempt_count ≥ 1`. -/
theorem conflict_artifact_attempt_zero :
    (executeTemplateRun baseEnv ["ops"]).artifact.errors =
      ["template run already in progress"] ∧
    (executeTemplateRun baseEnv ["ops"]).artifact.attempt_count = 0 ∧
    ¬ 1 ≤ (executeTemplateRun baseEnv ["ops"]).artifact.attempt_count := by
  decide

/-- C1 amended: with a monotone clock every persisted artifact satisfies
`started_at ≤ finished_at`; `attempt_count ≥ 1` holds for every run that
actually executes, while the in-flight-conflict failure artifact has
`attempt_count = 0` and equal timestamps. -/
theorem artifact_time_attempt_bounds (env : RunEnv) (running : List String)
    (hclock : Monotone env.now) :
    (executeTemplateRun env running).artifact.started_at ≤
      (executeTemplateRun env running).artifact.finished_at ∧
    (env.templateId ∉ running →
      1 ≤ (executeTemplateRun env running).artifact.attempt_count) ∧
    (env.templateId ∈ running →
      (executeTemplateRun env running).artifact.attempt_count = 0 ∧
      (executeTemplateRun env running).artifact.started_at =
        (executeTemplateRun env running).artifact.finished_at) := by
  by_cases hmem : env.templateId ∈ running
  · simp [executeTemplateRun, hmem]
  · have h01 : env.now 0 ≤ env.now 1 := hclock (by omega)
    have hac := attemptSteps_attemptCount env env.repairAttemptsRaw.toNat
      env.retryCountRaw.toNat 0 []
    simp [executeTemplateRun, hmem]
    exact ⟨h01, hac⟩

/-- Witness for C1: a healthy manual run under the identity clock. -/
theorem artifact_time_attempt_bounds_witness :
    (executeTemplateRun baseEnv []).artifact.started_at ≤
      (executeTemplateRun baseEnv []).artifact.finished_at ∧
    ("ops" ∉ ([] : List String) →
      1 ≤ (executeTemplateRun baseEnv []).artifact.attempt_count) ∧
    ("ops" ∈ ([] : List String) →
      (executeTemplateRun baseEnv []).artifact.attempt_count = 0 ∧
      (executeTemplateRun baseEnv []).artifact.started_at =
        (executeTemplateRun baseEnv []).artifact.finished_at) :=
  artifact_time_attempt_bounds baseEnv [] (fun _ _ h => h)

/-- C4 amended: the scheduler tick starts a due template only while the
in-flight count is strictly below `max_parallel_runs`, so a tick preserves
the bound on the in-flight set. -/
theorem tick_respects_parallel_bound (maxParallel now : Nat)
    (stateRuns : String → Option RunStateEntry) (templates : List TickTemplate)
    (running : List String) (h : running.length ≤ maxParallel) :
    (tickLoop maxParallel now stateRuns templates running).length ≤ maxParallel := by
  induction templates generalizing running with
  | nil => simpa [tickLoop] using h
  | cons t rest ih =>
    by_cases he : t.enabled
    · by_cases hm : t.id ∈ running
      · simpa [tickLoop, he, hm] using ih running h
      · by_cases hcap : running.length ≥ maxParallel
        · simpa [tickLoop, he, hm, hcap] using h
        · have hlt : running.length < maxParallel := by omega
          by_cases hdue :
              (match resolveLastAttemptMs (stateRuns t.id) with
               | none => true
               | some last => decide (now ≥ last + t.everyMinutes * 60000)) = true
          · have hlen : (running ++ [t.id]).length ≤ maxParallel := by
              simp
              omega
            simpa [tickLoop, he, hm, hcap, hdue] using ih (running ++ [t.id]) hlen
          · simpa [tickLoop, he, hm, hcap, hdue] using ih running h
    · simpa [tickLoop, he] using ih running h

/-- Witness for C4: a tick over two due templates with
`max_parallel_runs = 1` keeps the in-flight count at one. -/
theorem tick_respects_parallel_bound_witness :
    (tickLoop 1 0 (fun _ => none)
      [{ id := "a", enabled := true, everyMinutes := 5 },
       { id := "b", enabled := true, everyMinutes := 5 }] []).length ≤ 1 :=
  tick_respects_parallel_bound 1 0 (fun _ => none) _ [] (by decide)

/-- C4 counterexample: with `max_parallel_runs = 1` and template `a` in
flight, a run-now for `b` still starts and the in-flight set grows to two
templates — the manual path checks only the per-template in-flight set,
never the parallelism bound. -/
theorem runNow_bypasses_parallel_bound :
    runNowModel ["a", "b"] envRunNow ["a"] =
      some (executeTemplateRun envRunNow ["a"]) ∧
    (executeTemplateRun envRunNow ["a"]).inFlightDuring = ["a", "b"] ∧
    1 < (executeTemplateRun envRunNow ["a"]).inFlightDuring.length ∧
    (executeTemplateRun envRunNow ["a"]).artifact.status = .success := by
  decide

/-- Setting an existing key yields the new value on lookup. -/
theorem lookupKey_setKey_self (vs : List (String × Json)) (k : String) (v w : Json)
    (h : Json.lookupKey vs k = some w) :
    Json.lookupKey (Json.setKey vs k v) k = some v := by
  induction vs with
  | nil => simp [Json.lookupKey] at h
  | cons kv rest ih =>
    obtain ⟨k1, v1⟩ := kv
    by_cases hk : k1 = k
    · simp [Json.lookupKey, Json.setKey, hk]
    · simp only [Json.lookupKey, Json.setKey, hk, if_false] at h ⊢
      exact ih h

/-- Setting one key leaves lookups of other keys unchanged. -/
theorem lookupKey_setKey_ne (vs : List (String × Json)) (k k2 : String) (v : Json)
    (h : k ≠ k2) :
    Json.lookupKey (Json.setKey vs k2 v) k = Json.lookupKey vs k := by
  induction vs with
  | nil => simp [Json.setKey]
  | cons kv rest ih =>
    obtain ⟨k1, v1⟩ := kv
    by_cases hk2 : k1 = k2
    · have hk : ¬ k1 = k := fun hkk => h (hkk ▸ hk2)
      simp only [Json.setKey, if_pos hk2, Json.lookupKey, if_neg hk]
    · simp only [Json.setKey, if_neg hk2, Json.lookupKey]
      by_cases hk : k1 = k
      · simp [if_pos hk]
      · simp only [if_neg hk]
        exact ih

/-- Lookup distributes over append via the first list. -/
theorem lookupKey_append_of_none (vs ws : List (String × Json)) (k : String)
    (h : Json.lookupKey vs k = none) :
    Json.lookupKey (vs ++ ws) k = Json.lookupKey ws k := by
  induction vs with
  | nil => rfl
  | cons kv rest ih =>
    obtain ⟨k1, v1⟩ := kv
    by_cases hk : k1 = k
    · simp [Json.lookupKey, hk] at h
    · simp only [Json.lookupKey, hk, if_false, List.cons_append] at h ⊢
      exact ih h

/-- A present key keeps its binding under append. -/
theorem lookupKey_append_of_some (vs ws : List (String × Json)) (k : String)
    (w : Json) (h : Json.lookupKey vs k = some w) :
    Json.lookupKey (vs ++ ws) k = some w := by
  induction vs with
  | nil => simp [Json.lookupKey] at h
  | cons kv rest ih =>
    obtain ⟨k1, v1⟩ := kv
    by_cases hk : k1 = k
    · simp only [Json.lookupKey, hk, if_pos rfl, List.cons_append] at h ⊢
      exact h
    · simp only [Json.lookupKey, hk, if_false, List.cons_append] at h ⊢
      exact ih h

/-- Record assignment places the value at the key. -/
theorem lookupKey_recordSet_self (vs : List (String × Json)) (k : String) (v : Json) :
    Json.lookupKey (recordSet vs k v) k = some v := by
  unfold recordSet
  by_cases h : (Json.lookupKey vs k).isSome
  · obtain ⟨w, hw⟩ := Option.isSome_iff_exists.mp h
    simp only [h, if_pos]
    exact lookupKey_setKey_self vs k v w hw
  · have hn : Json.lookupKey vs k = none := Option.not_isSome_iff_eq_none.mp h
    simp only [h, Bool.false_eq_true, if_false]
    rw [lookupKey_append_of_none vs _ k hn]
    simp [Json.lookupKey]

/-- Record assignment leaves other keys unchanged. -/
theorem lookupKey_recordSet_ne (vs : List (String × Json)) (k k2 : String) (v : Json)
    (h : k ≠ k2) :
    Json.lookupKey (recordSet vs k2 v) k = Json.lookupKey vs k := by
  unfold recordSet
  by_cases hs : (Json.lookupKey vs k2).isSome
  · simp only [hs, if_pos]
    exact lookupKey_setKey_ne vs k k2 v h
  · simp only [hs, Bool.false_eq_true, if_false]
    cases hvk : Json.lookupKey vs k with
    | some w => exact lookupKey_append_of_some vs _ k w hvk
    | none =>
      rw [lookupKey_append_of_none vs _ k hvk]
      simp [Json.lookupKey, Ne.symm h]

/-- Folding the mock assignment over fields whose ids avoid `k` leaves the
binding of `k` unchanged. -/
theorem lookup_mockfold_absent (cv : List (String × Json)) (now : String)
    (fields : List FieldSpec) (acc : List (String × Json)) (k : String)
    (h : k ∉ fields.map (fun f => f.id)) :
    Json.lookupKey
      (fields.foldl (fun a f =>
        recordSet a f.id (mockValue f.type (Json.lookupKey cv f.id) f.id now)) acc) k
      = Json.lookupKey acc k := by
  induction fields generalizing acc with
  | nil => rfl
  | cons g rest ih =>
    simp only [List.map_cons, List.mem_cons, not_or] at h
    simp only [List.foldl_cons]
    rw [ih _ h.2, lookupKey_recordSet_ne _ _ _ _ h.1]

/-- Folding the mock assignment over fields with distinct ids binds every
field id to its mock value. -/
theorem lookup_mockfold_mem (cv : List (String × Json)) (now : String) :
    ∀ (fields : List FieldSpec), (fields.map (fun f => f.id)).Nodup →
    ∀ (acc : List (String × Json)) (f : FieldSpec), f ∈ fields →
      Json.lookupKey
        (fields.foldl (fun a g =>
          recordSet a g.id (mockValue g.type (Json.lookupKey cv g.id) g.id now)) acc) f.id
        = some (mockValue f.type (Json.lookupKey cv f.id) f.id now) := by
  intro fields
  induction fields with
  | nil => intro _ acc f hf; cases hf
  | cons g rest ih =>
    intro hnd acc f hf
    simp only [List.map_cons, List.nodup_cons] at hnd
    rcases List.mem_cons.mp hf with hfg | hfr
    · subst hfg
      simp only [List.foldl_cons]
      rw [lookup_mockfold_absent cv now rest _ f.id hnd.1]
      exact lookupKey_recordSet_self _ _ _
    · simp only [List.foldl_cons]
      exact ih hnd.2 _ f hfr

/-- C3 counterexample: for a string field whose current value is the
type-compatible string `old`, the mock runner still returns the synthetic
timestamped string instead of the current value. -/
theorem mock_string_ignores_current :
    mockRun [{ id := "summary", pointer := "/summary", type := .string }]
      [("summary", .str "old")] "2025-01-01T00:00:00.000Z"
      = [("summary", .str "updated summary at 2025-01-01T00:00:00.000Z")] ∧
    typeCompatible .string (.str "old") = true ∧
    Json.str "updated summary at 2025-01-01T00:00:00.000Z" ≠ .str "old" := by
  refine ⟨rfl, rfl, ?_⟩
  simp only [ne_eq, Json.str.injEq]
  decide

/-- C3 amended: the mock runner is total and binds every field id; number,
boolean, and array fields keep a type-compatible current value and fall
back to the type default otherwise, while string fields always receive the
synthetic timestamped string, current value notwithstanding. -/
theorem mock_fill_typed_values (fields : List FieldSpec) (cv : List (String × Json))
    (now : String) (hnd : (fields.map (fun f => f.id)).Nodup) :
    ∀ f ∈ fields, ∃ v,
      Json.lookupKey (mockRun fields cv now) f.id = some v ∧
      (f.type = .string → v = .str ("updated " ++ f.id ++ " at " ++ now)) ∧
      (∀ c, Json.lookupKey cv f.id = some c → typeCompatible f.type c = true →
        f.type ≠ .string → v = c) ∧
      (∀ c, Json.lookupKey cv f.id = some c → typeCompatible f.type c = false →
        v = typeDefault f.type f.id now) ∧
      (Json.lookupKey cv f.id = none → v = typeDefault f.type f.id now) := by
  intro f hf
  refine ⟨mockValue f.type (Json.lookupKey cv f.id) f.id now,
    lookup_mockfold_mem cv now fields hnd [] f hf, ?_, ?_, ?_, ?_⟩
  · intro ht
    simp [mockValue, ht]
  · intro c hc hcompat hne
    rw [hc]
    cases htype : f.type <;> cases c <;>
      simp_all [mockValue, typeCompatible]
  · intro c hc hcompat
    rw [hc]
    cases htype : f.type <;> cases c <;>
      simp_all [mockValue, typeCompatible, typeDefault]
  · intro hnone
    rw [hnone]
    cases htype : f.type <;> simp [mockValue, typeDefault]

/-- Witness for C3: one field of each declared type with a compatible,
an incompatible, and an absent current value. -/
theorem mock_fill_typed_values_witness :
    ∃ v, Json.lookupKey
        (mockRun [{ id := "n", pointer := "/n", type := .number }]
          [("n", .num 7)] "T") "n" = some v ∧
      (FieldType.number = .string → v = .str ("updated " ++ "n" ++ " at " ++ "T")) ∧
      (∀ c, Json.lookupKey [("n", Json.num 7)] "n" = some c →
        typeCompatible .number c = true → FieldType.number ≠ .string → v = c) ∧
      (∀ c, Json.lookupKey [("n", Json.num 7)] "n" = some c →
        typeCompatible .number c = false → v = typeDefault .number "n" "T") ∧
      (Json.lookupKey [("n", Json.num 7)] "n" = none →
        v = typeDefault .number "n" "T") :=
  mock_fill_typed_values [{ id := "n", pointer := "/n", type := .number }]
    [("n", .num 7)] "T" (by simp) { id := "n", pointer := "/n", type := .number }
    (by simp)

/-- C2 counterexample: a shape-invalid fill response with a repair
iteration available (`repair_attempts = 1`) does not re-invoke the fill
runner within the attempt — the failure throws past the repair loop, the
run sleeps the retry backoff, and the next fill call is a fresh attempt
with no error hint, consuming a retry (`attempt_count = 2`). -/
theorem shape_failure_skips_repair :
    (executeTemplateRun envShape []).trace =
      [.fillCall 0 0 none, .sleepBackoff 20000, .fillCall 1 0 none,
       .reload 1 0 none] ∧
    (executeTemplateRun envShape []).artifact.attempt_count = 2 ∧
    RunEvent.sleepBackoff 20000 ∈ (executeTemplateRun envShape []).trace ∧
    RunEvent.fillCall 0 1 (some "bad shape") ∉ (executeTemplateRun envShape []).trace := by
  decide

/-- Backoff sleeps happen only between attempts: no repair-loop trace
contains a sleep event. -/
theorem repairSteps_no_sleep (env : RunEnv) (a : Nat) :
    ∀ (left r : Nat) (hint : Option String) (ms : Nat),
      RunEvent.sleepBackoff ms ∉ (repairSteps env a left r hint).2 := by
  intro left
  induction left with
  | zero =>
    intro r hint ms
    cases hfill : env.fill a r with
    | throws m => simp [repairSteps, hfill]
    | resp es2 =>
      by_cases hes : es2 = []
      · subst hes
        cases hpipe : env.pipe a r with
        | error m => simp [repairSteps, hfill, hpipe]
        | ok u =>
          by_cases hact : env.activeAt a r = some env.templateId
          · cases hpub : env.publishResult a r with
            | ok u2 => simp [repairSteps, hfill, hpipe, hact, hpub]
            | error m => simp [repairSteps, hfill, hpipe, hact, hpub]
          · simp [repairSteps, hfill, hpipe, hact]
      · simp [repairSteps, hfill, hes]
  | succ l ih =>
    intro r hint ms
    cases hfill : env.fill a r with
    | throws m => simp [repairSteps, hfill]
    | resp es2 =>
      by_cases hes : es2 = []
      · subst hes
        cases hpipe : env.pipe a r with
        | error m =>
          have hnext := ih (r + 1) (some m) ms
          simp [repairSteps, hfill, hpipe, hnext]
        | ok u =>
          by_cases hact : env.activeAt a r = some env.templateId
          · cases hpub : env.publishResult a r with
            | ok u2 => simp [repairSteps, hfill, hpipe, hact, hpub]
            | error m =>
              have hnext := ih (r + 1) (some m) ms
              simp [repairSteps, hfill, hpipe, hact, hpub, hnext]
          · simp [repairSteps, hfill, hpipe, hact]
      · simp [repairSteps, hfill, hes]

/-- The first event of every repair-loop trace is its own fill call,
carrying the hint it was entered with. -/
theorem repairSteps_head (env : RunEnv) (a : Nat) (left r : Nat)
    (hint : Option String) :
    (repairSteps env a left r hint).2.head? = some (.fillCall a r hint) := by
  cases left <;>
    cases hfill : env.fill a r with
    | throws m => simp [repairSteps, hfill]
    | resp es2 =>
      by_cases hes : es2 = []
      · subst hes
        cases hpipe : env.pipe a r with
        | error m => simp [repairSteps, hfill, hpipe]
        | ok u =>
          by_cases hact : env.activeAt a r = some env.templateId
          · cases hpub : env.publishResult a r with
            | ok u2 => simp [repairSteps, hfill, hpipe, hact, hpub]
            | error m => simp [repairSteps, hfill, hpipe, hact, hpub]
          · simp [repairSteps, hfill, hpipe, hact]
      · simp [repairSteps, hfill, hes]

/-- C2 amended: the fill call and the shape validation sit outside the
repair-loop catch, so a shape-invalid response exits the repair loop at
once and is handled by the retry machinery — backoff sleep, fresh
attempt, no hint — whereas a failure of the merge/validate/snapshot
pipeline with repair iterations remaining re-invokes the fill runner
within the same attempt, passing the failure message as the error hint,
and the repair loop itself never sleeps. -/
theorem repair_retry_policy (env : RunEnv) (a left r leftA R : Nat)
    (hint : Option String) (msg : String) (es errors : List String)
    (tr : List RunEvent) :
    (env.fill a r = .resp es → es ≠ [] →
      repairSteps env a left r hint =
        (.thrown (String.intercalate "; " es), [.fillCall a r hint])) ∧
    (env.fill a r = .resp [] → env.pipe a r = .error msg →
      repairSteps env a (left + 1) r hint =
        ((repairSteps env a left (r + 1) (some msg)).1,
          .fillCall a r hint :: (repairSteps env a left (r + 1) (some msg)).2)) ∧
    (∀ ms, RunEvent.sleepBackoff ms ∉ (repairSteps env a left r hint).2) ∧
    ((repairSteps env a left r hint).2.head? = some (.fillCall a r hint)) ∧
    (repairSteps env a R 0 none = (.thrown msg, tr) →
      attemptSteps env R (leftA + 1) a errors =
        ((attemptSteps env R leftA (a + 1) (errors ++ [msg])).1,
          tr ++ [.sleepBackoff env.backoffMs] ++
            (attemptSteps env R leftA (a + 1) (errors ++ [msg])).2)) := by
  refine ⟨?_, ?_, repairSteps_no_sleep env a left r hint,
    repairSteps_head env a left r hint, ?_⟩
  · intro hfill hes
    cases left <;> simp [repairSteps, hfill, hes]
  · intro hfill hpipe
    simp [repairSteps, hfill, hpipe]
  · intro hrep
    simp [attemptSteps, hrep]

/-- Witness for C2 on the concrete shape-failure environment: the first
conjunct at attempt 0, the pipeline-repair conjunct on a variant whose
merge step fails once, and the retry-sleep conjunct. -/
theorem repair_retry_policy_witness :
    (repairSteps envShape 0 1 0 none =
      (.thrown (String.intercalate "; " ["bad shape"]), [.fillCall 0 0 none])) ∧
    attemptSteps envShape 1 1 0 [] =
      ((attemptSteps envShape 1 0 1 ([] ++ ["bad shape"])).1,
        [.fillCall 0 0 none] ++ [.sleepBackoff envShape.backoffMs] ++
          (attemptSteps envShape 1 0 1 ([] ++ ["bad shape"])).2) :=
  ⟨(repair_retry_policy envShape 0 1 0 0 1 none "m" ["bad shape"] []
      []).1 rfl (by decide),
   (repair_retry_policy envShape 0 1 0 0 1 none "bad shape" ["bad shape"] []
      [.fillCall 0 0 none]).2.2.2.2 (by decide)⟩

/-- Sorted insertion preserves membership. -/
theorem mem_insertSorted (x a : String) (l : List String) :
    a ∈ insertSorted x l ↔ a = x ∨ a ∈ l := by
  induction l with
  | nil => simp [insertSorted]
  | cons y ys ih =>
    by_cases h : idLe x y
    · simp [insertSorted, h]
    · simp only [insertSorted, h, Bool.false_eq_true, if_false, List.mem_cons, ih]
      tauto

/-- Sorting preserves membership. -/
theorem mem_sortIds (a : String) (l : List String) : a ∈ sortIds l ↔ a ∈ l := by
  induction l with
  | nil => simp [sortIds]
  | cons x xs ih => simp [sortIds, mem_insertSorted, ih]

/-- The head of the sorted id list is one of the ids. -/
theorem head?_sortIds_mem (l : List String) (a : String)
    (h : (sortIds l).head? = some a) : a ∈ l := by
  have hmem : a ∈ sortIds l := by
    cases hs : sortIds l with
    | nil => rw [hs] at h; cases h
    | cons x xs =>
      rw [hs] at h
      have hax : x = a := by simpa using h
      rw [← hax]
      exact List.mem_cons_self x xs
  exact (mem_sortIds a l).mp hmem

/-- `templateCreate` preserves admin-state well-formedness. -/
theorem templateCreate_wf (valid : String → Bool) (s : AdminState) (cid : String)
    (hwf : AdminWF s) : AdminWF (templateCreate valid s cid).1 := by
  by_cases hex : cid ∈ s.templates
  · simpa [templateCreate, hex] using hwf
  · by_cases hv : valid cid
    · by_cases hact : s.active = none
      · right
        exact ⟨cid, by simp [templateCreate, hex, hv, hact]⟩
      · rcases hwf with hnone | ⟨a, ha, hmem⟩
        · exact absurd hnone hact
        · right
          refine ⟨a, ?_, ?_⟩
          · simp [templateCreate, hex, hv, ha, hact]
          · simp [templateCreate, hex, hv, hact]
            exact Or.inl hmem
    · simpa [templateCreate, hex, hv] using hwf

/-- `templateDelete` preserves admin-state well-formedness. -/
theorem templateDelete_wf (s : AdminState) (id : String) (hwf : AdminWF s) :
    AdminWF (templateDelete s id).1 := by
  by_cases hex : id ∈ s.templates
  · by_cases hact : s.active = some id
    · cases hh : (sortIds (s.templates.erase id)).head? with
      | none => left; simp [templateDelete, hex, hact, hh]
      | some a =>
        right
        refine ⟨a, by simp [templateDelete, hex, hact, hh], ?_⟩
        have := head?_sortIds_mem _ _ hh
        simpa [templateDelete, hex, hact] using this
    · rcases hwf with hnone | ⟨a, ha, hmem⟩
      · left
        simp [templateDelete, hex, hact, hnone]
      · have hne : a ≠ id := fun he => hact (he ▸ ha)
        right
        refine ⟨a, by simp [templateDelete, hex, ha, hne], ?_⟩
        have hgoal : a ∈ s.templates.erase id := (List.mem_erase_of_ne hne).mpr hmem
        simpa [templateDelete, hex, ha, hne] using hgoal
  · simpa [templateDelete, hex] using hwf

/-- C8: deleting an existing template removes it; when the deleted
template was active, the active pointer moves to the first remaining id in
ascending order or null; and well-formedness — the active pointer names an
existing template or is null — survives any `templateCreate` followed by
any `templateDelete`. -/
theorem delete_reassigns_active (s : AdminState) (id cid : String)
    (valid : String → Bool) (hnd : s.templates.Nodup) (hwf : AdminWF s) :
    (id ∈ s.templates → id ∉ (templateDelete s id).1.templates) ∧
    (id ∈ s.templates → s.active = some id →
      (templateDelete s id).1.active = (sortIds (s.templates.erase id)).head?) ∧
    AdminWF (templateDelete (templateCreate valid s cid).1 id).1 := by
  refine ⟨?_, ?_, templateDelete_wf _ id (templateCreate_wf valid s cid hwf)⟩
  · intro hmem
    by_cases hact : s.active = some id <;>
      simp [templateDelete, hmem, hact, hnd.not_mem_erase]
  · intro hmem hact
    simp [templateDelete, hmem, hact]

/-- Witness for C8: deleting the active template `b` from a two-template
store falls back to the first remaining id, and create-then-delete keeps
the state well-formed. -/
theorem delete_reassigns_active_witness :
    ("b" ∈ (AdminState.mk ["b", "a"] (some "b")).templates →
      "b" ∉ (templateDelete (AdminState.mk ["b", "a"] (some "b")) "b").1.templates) ∧
    ("b" ∈ (AdminState.mk ["b", "a"] (some "b")).templates →
      (AdminState.mk ["b", "a"] (some "b")).active = some "b" →
      (templateDelete (AdminState.mk ["b", "a"] (some "b")) "b").1.active =
        (sortIds ((AdminState.mk ["b", "a"] (some "b")).templates.erase "b")).head?) ∧
    AdminWF (templateDelete (templateCreate (fun _ => true)
      (AdminState.mk ["b", "a"] (some "b")) "c").1 "b").1 :=
  delete_reassigns_active (AdminState.mk ["b", "a"] (some "b")) "b" "c"
    (fun _ => true) (by decide) (Or.inr ⟨"b", rfl, by decide⟩)
/-- The publish discipline of one repair loop: every reload event records
the oracle state and is answered by a publish call exactly when the active
template matched; publish calls happen only on a match and carry the
publish outcome; a success exit is published exactly on a match; and a
successful publish call forces the success exit. -/
theorem repairSteps_publish_spec (env : RunEnv) (a : Nat) :
    ∀ (left r : Nat) (hint : Option String),
      (∀ a2 r2 act, RunEvent.reload a2 r2 act ∈ (repairSteps env a left r hint).2 →
        a2 = a ∧ act = env.activeAt a r2 ∧
        (act = some env.templateId →
          RunEvent.publishCall a2 r2 (env.publishResult a r2).isOk ∈
            (repairSteps env a left r hint).2)) ∧
      (∀ a2 r2 ok, RunEvent.publishCall a2 r2 ok ∈ (repairSteps env a left r hint).2 →
        a2 = a ∧ env.activeAt a r2 = some env.templateId ∧
        ok = (env.publishResult a r2).isOk) ∧
      (∀ p act, (repairSteps env a left r hint).1 = .success p act →
        (p = true ↔ act = some env.templateId)) ∧
      (∀ a2 r2, RunEvent.publishCall a2 r2 true ∈ (repairSteps env a left r hint).2 →
        ∃ act, (repairSteps env a left r hint).1 = .success true act) := by
  intro left
  induction left with
  | zero =>
    intro r hint
    cases hfill : env.fill a r with
    | throws m => simp [repairSteps, hfill]
    | resp es2 =>
      by_cases hes : es2 = []
      · subst hes
        cases hpipe : env.pipe a r with
        | error m => simp [repairSteps, hfill, hpipe]
        | ok u =>
          by_cases hact : env.activeAt a r = some env.templateId
          · cases hpub : env.publishResult a r with
            | ok u2 =>
              refine ⟨?_, ?_, ?_, ?_⟩
              · intro a2 r2 act hmem
                simp [repairSteps, hfill, hpipe, hact, hpub] at hmem
                obtain ⟨ha2, hr2, hactv⟩ := hmem
                subst ha2
                subst hr2
                simp [repairSteps, hfill, hpipe, hact, hpub, hactv,
                  Except.isOk, Except.toBool]
              · intro a2 r2 ok hmem
                simp [repairSteps, hfill, hpipe, hact, hpub] at hmem
                obtain ⟨ha2, hr2, hok⟩ := hmem
                subst ha2
                subst hr2
                simp [hok, hact, hpub, Except.isOk, Except.toBool]
              · intro p act hexit
                simp [repairSteps, hfill, hpipe, hact, hpub] at hexit
                obtain ⟨hp, hactv⟩ := hexit
                simp [hp, hactv, hact]
              · intro a2 r2 _
                exact ⟨env.activeAt a r,
                  by simp [repairSteps, hfill, hpipe, hact, hpub]⟩
            | error m =>
              refine ⟨?_, ?_, ?_, ?_⟩
              · intro a2 r2 act hmem
                simp [repairSteps, hfill, hpipe, hact, hpub] at hmem
                obtain ⟨ha2, hr2, hactv⟩ := hmem
                subst ha2
                subst hr2
                simp [repairSteps, hfill, hpipe, hact, hpub, hactv,
                  Except.isOk, Except.toBool]
              · intro a2 r2 ok hmem
                simp [repairSteps, hfill, hpipe, hact, hpub] at hmem
                obtain ⟨ha2, hr2, hok⟩ := hmem
                subst ha2
                subst hr2
                simp [hok, hact, hpub, Except.isOk, Except.toBool]
              · intro p act hexit
                simp [repairSteps, hfill, hpipe, hact, hpub] at hexit
              · intro a2 r2 hmem
                simp [repairSteps, hfill, hpipe, hact, hpub] at hmem
          · refine ⟨?_, ?_, ?_, ?_⟩
            · intro a2 r2 act hmem
              simp [repairSteps, hfill, hpipe, hact] at hmem
              obtain ⟨ha2, hr2, hactv⟩ := hmem
              subst ha2
              subst hr2
              simp [repairSteps, hfill, hpipe, hact, hactv]
            · intro a2 r2 ok hmem
              simp [repairSteps, hfill, hpipe, hact] at hmem
            · intro p act hexit
              simp [repairSteps, hfill, hpipe, hact] at hexit
              obtain ⟨hp, hactv⟩ := hexit
              subst hp
              subst hactv
              simp [hact]
            · intro a2 r2 hmem
              simp [repairSteps, hfill, hpipe, hact] at hmem
      · simp [repairSteps, hfill, hes]
  | succ l ih =>
    intro r hint
    cases hfill : env.fill a r with
    | throws m => simp [repairSteps, hfill]
    | resp es2 =>
      by_cases hes : es2 = []
      · subst hes
        cases hpipe : env.pipe a r with
        | error m =>
          obtain ⟨ih1, ih2, ih3, ih4⟩ := ih (r + 1) (some m)
          refine ⟨?_, ?_, ?_, ?_⟩
          · intro a2 r2 act hmem
            simp [repairSteps, hfill, hpipe] at hmem ⊢
            obtain ⟨ha2, hactv, hpubm⟩ := ih1 a2 r2 act hmem
            exact ⟨ha2, hactv, hpubm⟩
          · intro a2 r2 ok hmem
            simp [repairSteps, hfill, hpipe] at hmem
            exact ih2 a2 r2 ok hmem
          · intro p act hexit
            simp [repairSteps, hfill, hpipe] at hexit
            exact ih3 p act hexit
          · intro a2 r2 hmem
            simp [repairSteps, hfill, hpipe] at hmem ⊢
            exact ih4 a2 r2 hmem
        | ok u =>
          by_cases hact : env.activeAt a r = some env.templateId
          · cases hpub : env.publishResult a r with
            | ok u2 =>
              refine ⟨?_, ?_, ?_, ?_⟩
              · intro a2 r2 act hmem
                simp [repairSteps, hfill, hpipe, hact, hpub] at hmem
                obtain ⟨ha2, hr2, hactv⟩ := hmem
                subst ha2
                subst hr2
                simp [repairSteps, hfill, hpipe, hact, hpub, hactv,
                  Except.isOk, Except.toBool]
              · intro a2 r2 ok hmem
                simp [repairSteps, hfill, hpipe, hact, hpub] at hmem
                obtain ⟨ha2, hr2, hok⟩ := hmem
                subst ha2
                subst hr2
                simp [hok, hact, hpub, Except.isOk, Except.toBool]
              · intro p act hexit
                simp [repairSteps, hfill, hpipe, hact, hpub] at hexit
                obtain ⟨hp, hactv⟩ := hexit
                simp [hp, hactv, hact]
              · intro a2 r2 _
                exact ⟨env.activeAt a r,
                  by simp [repairSteps, hfill, hpipe, hact, hpub]⟩
            | error m =>
              obtain ⟨ih1, ih2, ih3, ih4⟩ := ih (r + 1) (some m)
              refine ⟨?_, ?_, ?_, ?_⟩
              · intro a2 r2 act hmem
                simp [repairSteps, hfill, hpipe, hact, hpub,
                  Except.isOk, Except.toBool] at hmem ⊢
                rcases hmem with ⟨ha2, hr2, hactv⟩ | hmem
                · subst ha2
                  subst hr2
                  subst hactv
                  simp [hact, hpub, Except.isOk, Except.toBool]
                · obtain ⟨ha2, hactv, hpubm⟩ := ih1 a2 r2 act hmem
                  exact ⟨ha2, hactv, fun hs => Or.inr (hpubm hs)⟩
              · intro a2 r2 ok hmem
                simp [repairSteps, hfill, hpipe, hact, hpub,
                  Except.isOk, Except.toBool] at hmem
                rcases hmem with ⟨ha2, hr2, hok⟩ | hmem
                · subst ha2
                  subst hr2
                  subst hok
                  simp [hact, hpub, Except.isOk, Except.toBool]
                · exact ih2 a2 r2 ok hmem
              · intro p act hexit
                simp [repairSteps, hfill, hpipe, hact, hpub] at hexit
                exact ih3 p act hexit
              · intro a2 r2 hmem
                simp [repairSteps, hfill, hpipe, hact, hpub] at hmem ⊢
                exact ih4 a2 r2 hmem
          · refine ⟨?_, ?_, ?_, ?_⟩
            · intro a2 r2 act hmem
              simp [repairSteps, hfill, hpipe, hact] at hmem
              obtain ⟨ha2, hr2, hactv⟩ := hmem
              subst ha2
              subst hr2
              simp [repairSteps, hfill, hpipe, hact, hactv]
            · intro a2 r2 ok hmem
              simp [repairSteps, hfill, hpipe, hact] at hmem
            · intro p act hexit
              simp [repairSteps, hfill, hpipe, hact] at hexit
              obtain ⟨hp, hactv⟩ := hexit
              subst hp
              subst hactv
              simp [hact]
            · intro a2 r2 hmem
              simp [repairSteps, hfill, hpipe, hact] at hmem
      · simp [repairSteps, hfill, hes]

/-- The publish discipline lifted through the retry loop: reload and
publish events of any attempt obey the repair-loop discipline, a
successful result exposes the reload observation of its succeeding
iteration together with the published flag, and an unpublished result has
no successful publish call in its trace. -/
theorem attemptSteps_publish_spec (env : RunEnv) (R : Nat) :
    ∀ (left a : Nat) (errors : List String),
      (∀ a2 r2 act, RunEvent.reload a2 r2 act ∈ (attemptSteps env R left a errors).2 →
        act = env.activeAt a2 r2 ∧
        (act = some env.templateId →
          RunEvent.publishCall a2 r2 (env.publishResult a2 r2).isOk ∈
            (attemptSteps env R left a errors).2)) ∧
      (∀ a2 r2 ok, RunEvent.publishCall a2 r2 ok ∈ (attemptSteps env R left a errors).2 →
        env.activeAt a2 r2 = some env.templateId) ∧
      ((attemptSteps env R left a errors).1.status = .success →
        ∃ act, (attemptSteps env R left a errors).1.successActive = some act ∧
          ((attemptSteps env R left a errors).1.published = true ↔
            act = some env.templateId)) ∧
      ((attemptSteps env R left a errors).1.published = false →
        ∀ a2 r2, RunEvent.publishCall a2 r2 true ∉ (attemptSteps env R left a errors).2) := by
  intro left
  induction left with
  | zero =>
    intro a errors
    obtain ⟨r1, r2l, r3, r4⟩ := repairSteps_publish_spec env a R 0 none
    rcases h : repairSteps env a R 0 none with ⟨exit, tr⟩
    rw [h] at r1 r2l r3 r4
    cases exit with
    | success p act =>
      refine ⟨?_, ?_, ?_, ?_⟩
      · intro a2 rr act2 hmem
        simp only [attemptSteps, h] at hmem ⊢
        obtain ⟨ha2, hactv, hpubm⟩ := r1 a2 rr act2 hmem
        subst ha2
        exact ⟨hactv, hpubm⟩
      · intro a2 rr ok hmem
        simp only [attemptSteps, h] at hmem
        obtain ⟨ha2, hactm, _⟩ := r2l a2 rr ok hmem
        subst ha2
        exact hactm
      · intro _
        refine ⟨act, by simp [attemptSteps, h], ?_⟩
        have hiff := r3 p act rfl
        simpa [attemptSteps, h] using hiff
      · intro hpub a2 rr hmem
        simp only [attemptSteps, h] at hmem hpub
        obtain ⟨act2, hexit⟩ := r4 a2 rr hmem
        have hp : p = true := by
          have := hexit
          simp at this
          exact this.1
        simp [hp] at hpub
    | thrown msg =>
      refine ⟨?_, ?_, ?_, ?_⟩
      · intro a2 rr act2 hmem
        simp only [attemptSteps, h] at hmem ⊢
        obtain ⟨ha2, hactv, hpubm⟩ := r1 a2 rr act2 hmem
        subst ha2
        exact ⟨hactv, hpubm⟩
      · intro a2 rr ok hmem
        simp only [attemptSteps, h] at hmem
        obtain ⟨ha2, hactm, _⟩ := r2l a2 rr ok hmem
        subst ha2
        exact hactm
      · intro hst
        simp [attemptSteps, h] at hst
      · intro _ a2 rr hmem
        simp only [attemptSteps, h] at hmem
        obtain ⟨act2, hexit⟩ := r4 a2 rr hmem
        simp at hexit
  | succ l ih =>
    intro a errors
    obtain ⟨r1, r2l, r3, r4⟩ := repairSteps_publish_spec env a R 0 none
    rcases h : repairSteps env a R 0 none with ⟨exit, tr⟩
    rw [h] at r1 r2l r3 r4
    cases exit with
    | success p act =>
      refine ⟨?_, ?_, ?_, ?_⟩
      · intro a2 rr act2 hmem
        simp only [attemptSteps, h] at hmem ⊢
        obtain ⟨ha2, hactv, hpubm⟩ := r1 a2 rr act2 hmem
        subst ha2
        exact ⟨hactv, hpubm⟩
      · intro a2 rr ok hmem
        simp only [attemptSteps, h] at hmem
        obtain ⟨ha2, hactm, _⟩ := r2l a2 rr ok hmem
        subst ha2
        exact hactm
      · intro _
        refine ⟨act, by simp [attemptSteps, h], ?_⟩
        have hiff := r3 p act rfl
        simpa [attemptSteps, h] using hiff
      · intro hpub a2 rr hmem
        simp only [attemptSteps, h] at hmem hpub
        obtain ⟨act2, hexit⟩ := r4 a2 rr hmem
        have hp : p = true := by
          have := hexit
          simp at this
          exact this.1
        simp [hp] at hpub
    | thrown msg =>
      obtain ⟨jh1, jh2, jh3, jh4⟩ := ih (a + 1) (errors ++ [msg])
      refine ⟨?_, ?_, ?_, ?_⟩
      · intro a2 rr act2 hmem
        simp [attemptSteps, h] at hmem ⊢
        rcases hmem with hmem | hmem
        · obtain ⟨ha2, hactv, hpubm⟩ := r1 a2 rr act2 hmem
          subst ha2
          exact ⟨hactv, fun hs => Or.inl (hpubm hs)⟩
        · obtain ⟨hactv, hpubm⟩ := jh1 a2 rr act2 hmem
          exact ⟨hactv, fun hs => Or.inr (hpubm hs)⟩
      · intro a2 rr ok hmem
        simp [attemptSteps, h] at hmem
        rcases hmem with hmem | hmem
        · obtain ⟨ha2, hactm, _⟩ := r2l a2 rr ok hmem
          subst ha2
          exact hactm
        · exact jh2 a2 rr ok hmem
      · intro hst
        simp only [attemptSteps, h] at hst ⊢
        exact jh3 hst
      · intro hpub a2 rr hmem
        simp [attemptSteps, h] at hmem hpub
        rcases hmem with hmem | hmem
        · obtain ⟨act2, hexit⟩ := r4 a2 rr hmem
          simp at hexit
        · exact jh4 hpub a2 rr hmem


/-- C6: in a run that is not rejected by the in-flight check, publish is
invoked if and only if the run template id equals the
`active_template_id` observed at the state reload immediately before the
publish decision; a successful run reports published exactly when its
final reload matched; and a run with `published = false` never performed a
successful publish (the live dashboard file is written only by a
successful publish call). -/
theorem publish_iff_active_at_reload (env : RunEnv) (running : List String)
    (hrun : env.templateId ∉ running) :
    (∀ a r act, RunEvent.reload a r act ∈ (executeTemplateRun env running).trace →
      act = env.activeAt a r ∧
      (act = some env.templateId →
        RunEvent.publishCall a r (env.publishResult a r).isOk ∈
          (executeTemplateRun env running).trace)) ∧
    (∀ a r ok, RunEvent.publishCall a r ok ∈ (executeTemplateRun env running).trace →
      env.activeAt a r = some env.templateId) ∧
    ((executeTemplateRun env running).artifact.status = .success →
      ∃ act, (executeTemplateRun env running).successActive = some act ∧
        ((executeTemplateRun env running).artifact.published = true ↔
          act = some env.templateId)) ∧
    ((executeTemplateRun env running).artifact.published = false →
      ∀ a r, RunEvent.publishCall a r true ∉ (executeTemplateRun env running).trace) := by
  obtain ⟨s1, s2, s3, s4⟩ := attemptSteps_publish_spec env env.repairAttemptsRaw.toNat
    env.retryCountRaw.toNat 0 []
  refine ⟨?_, ?_, ?_, ?_⟩
  · intro a r act hmem
    simp only [executeTemplateRun, hrun, if_neg, if_false] at hmem ⊢
    exact s1 a r act hmem
  · intro a r ok hmem
    simp only [executeTemplateRun, hrun, if_neg, if_false] at hmem
    exact s2 a r ok hmem
  · intro hst
    simp only [executeTemplateRun, hrun, if_neg, if_false] at hst ⊢
    exact s3 hst
  · intro hpub a r
    simp only [executeTemplateRun, hrun, if_neg, if_false] at hpub ⊢
    exact s4 hpub a r

/-- Witness for C6: the healthy active-template run. -/
theorem publish_iff_active_at_reload_witness :
    (∀ a r act, RunEvent.reload a r act ∈ (executeTemplateRun baseEnv []).trace →
      act = baseEnv.activeAt a r ∧
      (act = some baseEnv.templateId →
        RunEvent.publishCall a r (baseEnv.publishResult a r).isOk ∈
          (executeTemplateRun baseEnv []).trace)) ∧
    (∀ a r ok, RunEvent.publishCall a r ok ∈ (executeTemplateRun baseEnv []).trace →
      baseEnv.activeAt a r = some baseEnv.templateId) ∧
    ((executeTemplateRun baseEnv []).artifact.status = .success →
      ∃ act, (executeTemplateRun baseEnv []).successActive = some act ∧
        ((executeTemplateRun baseEnv []).artifact.published = true ↔
          act = some baseEnv.templateId)) ∧
    ((executeTemplateRun baseEnv []).artifact.published = false →
      ∀ a r, RunEvent.publishCall a r true ∉ (executeTemplateRun baseEnv []).trace) :=
  publish_iff_active_at_reload baseEnv [] (by decide)
/-- Writing back the element read at an index leaves the list unchanged. -/
theorem set_get_self {α : Type} : ∀ (l : List α) (n : Nat) (h : n < l.length),
    l.set n (l.get ⟨n, h⟩) = l := by
  intro l
  induction l with
  | nil => intro n h; cases h
  | cons x xs ih =>
    intro n h
    cases n with
    | zero => rfl
    | succ m =>
      have hm : m < xs.length := by simpa using h
      simpa using ih m hm

/-- Writing back the value found at a key leaves the record unchanged. -/
theorem setKey_lookup_id : ∀ (ms : List (String × Json)) (k : String) (v : Json),
    Json.lookupKey ms k = some v → Json.setKey ms k v = ms := by
  intro ms
  induction ms with
  | nil => intro k v h; cases h
  | cons kv rest ih =>
    intro k v h
    obtain ⟨k1, v1⟩ := kv
    by_cases hk : k1 = k
    · simp only [Json.lookupKey, if_pos hk] at h
      obtain rfl : v1 = v := by injection h
      simp [Json.setKey, hk]
    · simp only [Json.lookupKey, if_neg hk] at h
      simp only [Json.setKey, if_neg hk, ih k v h]

/-- Writing back the value read at a pointer path leaves the document
unchanged. -/
theorem writeTokens_read_id (p : String) :
    ∀ (ts : List String) (t : String) (doc v : Json),
      readTokens p doc (t :: ts) = .ok v →
      writeTokens p v doc t ts = .ok doc := by
  intro ts
  induction ts with
  | nil =>
    intro t doc v hread
    cases doc with
    | null => simp [readTokens] at hread
    | bool b => simp [readTokens] at hread
    | num n => simp [readTokens] at hread
    | str s => simp [readTokens] at hread
    | arr items =>
      by_cases hnum : isArrayIndex t
      · by_cases hlt : tokenToNat t < items.length
        · simp only [readTokens, hnum, Bool.not_true, Bool.false_eq_true,
            if_false, hlt, dif_pos] at hread
          simp only [readTokens, Except.ok.injEq] at hread
          simp only [writeTokens, writeLast, hnum, Bool.not_true,
            Bool.false_eq_true, if_false, if_pos hlt, Except.ok.injEq]
          rw [← hread]
          rw [set_get_self]
        · simp [readTokens, hnum, hlt] at hread
      · simp [readTokens, hnum] at hread
    | obj members =>
      cases hlk : Json.lookupKey members t with
      | some w =>
        simp only [readTokens, hlk] at hread
        simp only [readTokens, Except.ok.injEq] at hread
        simp only [writeTokens, writeLast, hlk, Except.ok.injEq]
        rw [← hread, setKey_lookup_id members t w hlk]
      | none => simp [readTokens, hlk] at hread
  | cons next rest ih =>
    intro t doc v hread
    cases doc with
    | null => simp [readTokens] at hread
    | bool b => simp [readTokens] at hread
    | num n => simp [readTokens] at hread
    | str s => simp [readTokens] at hread
    | arr items =>
      by_cases hnum : isArrayIndex t
      · by_cases hlt : tokenToNat t < items.length
        · simp only [readTokens, hnum, Bool.not_true, Bool.false_eq_true,
            if_false, hlt, dif_pos] at hread
          have hw := ih next (items.get ⟨tokenToNat t, hlt⟩) v hread
          simp only [writeTokens, hnum, Bool.not_true, Bool.false_eq_true,
            if_false, hlt, dif_pos, hw, Except.map, Except.ok.injEq]
          rw [set_get_self]
        · simp [readTokens, hnum, hlt] at hread
      · simp [readTokens, hnum] at hread
    | obj members =>
      cases hlk : Json.lookupKey members t with
      | some w =>
        simp only [readTokens, hlk] at hread
        have hw := ih next w v hread
        simp only [writeTokens, hlk, hw, Except.map, Except.ok.injEq]
        rw [setKey_lookup_id members t w hlk]
      | none => simp [readTokens, hlk] at hread

/-- Splitting always yields at least one part. -/
theorem splitSlash_ne_nil : ∀ cs : List Char, splitSlash cs ≠ [] := by
  intro cs
  induction cs with
  | nil => simp [splitSlash]
  | cons c rest ih =>
    by_cases h : c = '/'
    · simp [splitSlash, h]
    · simp only [splitSlash, h, if_neg, if_false]
      cases hs : splitSlash rest with
      | nil => simp
      | cons g gs => simp

/-- A successfully parsed pointer has at least one token. -/
theorem parsePointer_ne_nil (ptr : String) (ts : List String)
    (h : parsePointer ptr = .ok ts) : ts ≠ [] := by
  unfold parsePointer at h
  by_cases hc : ptr.toList.head? = some '/'
  · rw [if_pos hc] at h
    by_cases hcs : ptr.toList.tail = []
    · rw [if_pos hcs] at h
      injection h with h2
      subst h2
      simp
    · rw [if_neg hcs] at h
      injection h with h2
      subst h2
      simp [splitSlash_ne_nil]
  · rw [if_neg hc] at h
    cases h

/-- Pointer-level write-back identity: writing the value a pointer reads
reproduces the document. -/
theorem readPointer_writePointer_id (doc : Json) (ptr : String) (v : Json)
    (h : readPointer doc ptr = .ok v) : writePointer doc ptr v = .ok doc := by
  unfold readPointer at h
  unfold writePointer
  cases hp : parsePointer ptr with
  | error e =>
    rw [hp] at h
    exact Except.noConfusion h
  | ok ts =>
    rw [hp] at h
    cases ts with
    | nil => exact absurd rfl (parsePointer_ne_nil ptr [] hp)
    | cons t ts2 =>
      exact writeTokens_read_id ptr ts2 t doc v h

/-- Setting an existing key preserves the key list of a record. -/
theorem setKey_keys (k : String) (v : Json) :
    ∀ vs : List (String × Json),
      (Json.setKey vs k v).map Prod.fst = vs.map Prod.fst := by
  intro vs
  induction vs with
  | nil => rfl
  | cons kv rest ih =>
    obtain ⟨k1, v1⟩ := kv
    by_cases hk : k1 = k
    · simp [Json.setKey, hk]
    · simp [Json.setKey, hk, ih]

/-- Record assignment introduces no key other than the assigned one. -/
theorem recordSet_keys (vs : List (String × Json)) (k : String) (v : Json) :
    ∀ kv ∈ recordSet vs k v, kv.1 ∈ vs.map Prod.fst ∨ kv.1 = k := by
  intro kv hkv
  unfold recordSet at hkv
  by_cases hs : (Json.lookupKey vs k).isSome
  · rw [if_pos hs] at hkv
    left
    rw [← setKey_keys k v vs]
    exact List.mem_map_of_mem Prod.fst hkv
  · simp only [hs, Bool.false_eq_true, if_false, List.mem_append] at hkv
    rcases hkv with hm | hm
    · exact Or.inl (List.mem_map_of_mem Prod.fst hm)
    · right
      simp only [List.mem_singleton] at hm
      rw [hm]

/-- A template passing pointer validation has pairwise distinct field
ids, ids disjoint from the seen set, and every pointer resolving in the
base document. -/
theorem validatePointersLoop_facts (base : Json) :
    ∀ (fields : List FieldSpec) (seenIds seenPtrs : List String),
      validatePointersLoop base fields seenIds seenPtrs = .ok () →
      (fields.map (fun f => f.id)).Nodup ∧
      (∀ f ∈ fields, f.id ∉ seenIds) ∧
      (∀ f ∈ fields, ∃ v, readPointer base f.pointer = .ok v) := by
  intro fields
  induction fields with
  | nil =>
    intro seenIds seenPtrs _
    exact ⟨by simp, by simp, by simp⟩
  | cons f rest ih =>
    intro seenIds seenPtrs h
    by_cases hid : f.id ∈ seenIds
    · simp [validatePointersLoop, hid] at h
    · by_cases hptr : f.pointer ∈ seenPtrs
      · simp [validatePointersLoop, hid, hptr] at h
      · simp only [validatePointersLoop, hid, hptr, if_neg, if_false] at h
        cases hrp : readPointer base f.pointer with
        | error e =>
          rw [hrp] at h
          exact Except.noConfusion h
        | ok v =>
          rw [hrp] at h
          have hrest : validatePointersLoop base rest (f.id :: seenIds)
              (f.pointer :: seenPtrs) = .ok () := h
          obtain ⟨hnd, hseen, hread⟩ := ih _ _ hrest
          refine ⟨?_, ?_, ?_⟩
          · rw [List.map_cons, List.nodup_cons]
            refine ⟨?_, hnd⟩
            intro hmem
            obtain ⟨g, hg, hgid⟩ := List.mem_map.mp hmem
            have hgs := hseen g hg
            rw [hgid] at hgs
            exact hgs (List.mem_cons_self _ _)
          · intro g hg
            rcases List.mem_cons.mp hg with rfl | hgr
            · exact hid
            · have hgs := hseen g hgr
              intro hbad
              exact hgs (List.mem_cons_of_mem _ hbad)
          · intro g hg
            rcases List.mem_cons.mp hg with rfl | hgr
            · exact ⟨v, hrp⟩
            · exact hread g hgr

/-- Collecting values for fields whose ids avoid a key leaves that
binding untouched. -/
theorem collectLoop_lookup_absent (base : Json) :
    ∀ (fields : List FieldSpec) (acc cvs : List (String × Json)) (k : String),
      collectLoop base fields acc = .ok cvs →
      k ∉ fields.map (fun f => f.id) →
      Json.lookupKey cvs k = Json.lookupKey acc k := by
  intro fields
  induction fields with
  | nil =>
    intro acc cvs k h _
    injection h with h2
    rw [h2]
  | cons f rest ih =>
    intro acc cvs k h hk
    simp only [List.map_cons, List.mem_cons, not_or] at hk
    cases hrp : readPointer base f.pointer with
    | error e =>
      unfold collectLoop at h
      rw [hrp] at h
      exact Except.noConfusion h
    | ok v =>
      unfold collectLoop at h
      rw [hrp] at h
      have hrest : collectLoop base rest (recordSet acc f.id v) = .ok cvs := h
      rw [ih _ _ k hrest hk.2]
      exact lookupKey_recordSet_ne acc k f.id v hk.1

/-- Collecting current values succeeds when every pointer resolves, keys
the result by field ids, and — under distinct ids — binds each field id to
its base value. -/
theorem collectLoop_facts (base : Json) :
    ∀ (fields : List FieldSpec) (acc : List (String × Json)),
      (∀ f ∈ fields, ∃ v, readPointer base f.pointer = .ok v) →
      ∃ cvs, collectLoop base fields acc = .ok cvs ∧
        (∀ kv ∈ cvs, kv.1 ∈ acc.map Prod.fst ∨ kv.1 ∈ fields.map (fun f => f.id)) ∧
        ((fields.map (fun f => f.id)).Nodup →
          ∀ f ∈ fields, ∀ v, readPointer base f.pointer = .ok v →
            Json.lookupKey cvs f.id = some v) := by
  intro fields
  induction fields with
  | nil =>
    intro acc _
    exact ⟨acc, rfl, fun kv hkv => Or.inl (List.mem_map_of_mem Prod.fst hkv),
      by simp⟩
  | cons f rest ih =>
    intro acc hreads
    obtain ⟨v, hrp⟩ := hreads f (List.mem_cons_self f rest)
    obtain ⟨cvs, hcol, hkeys, hlook⟩ :=
      ih (recordSet acc f.id v) (fun g hg => hreads g (List.mem_cons_of_mem f hg))
    refine ⟨cvs, ?_, ?_, ?_⟩
    · unfold collectLoop
      rw [hrp]
      exact hcol
    · intro kv hkv
      rcases hkeys kv hkv with hacc | hrest
      · rcases List.mem_map.mp hacc with ⟨kv2, hkv2, hfst⟩
        rcases recordSet_keys acc f.id v kv2 hkv2 with hm | hm
        · left
          rw [← hfst]
          exact hm
        · right
          rw [← hfst, hm]
          simp
      · right
        simp only [List.map_cons, List.mem_cons]
        exact Or.inr hrest
    · intro hnd g hg w hw
      simp only [List.map_cons, List.nodup_cons] at hnd
      rcases List.mem_cons.mp hg with rfl | hgr
      · rw [collectLoop_lookup_absent base rest _ _ g.id hcol hnd.1]
        rw [hw] at hrp
        injection hrp with hvw
        subst hvw
        exact lookupKey_recordSet_self acc g.id w
      · exact hlook hnd.2 g hgr w hw

/-- The unknown-id gate passes when every key is a declared field id. -/
theorem checkKnownIds_ok (known : List String) :
    ∀ values : List (String × Json), (∀ kv ∈ values, kv.1 ∈ known) →
      checkKnownIds known values = .ok () := by
  intro values
  induction values with
  | nil => intro _; rfl
  | cons kv rest ih =>
    intro hall
    obtain ⟨k, v⟩ := kv
    have hk : k ∈ known := hall (k, v) (List.mem_cons_self _ _)
    simp only [checkKnownIds, hk, if_pos]
    exact ih (fun kv2 hkv2 => hall kv2 (List.mem_cons_of_mem _ hkv2))

/-- Merging values that are exactly the base values at the field pointers
reproduces the base document. -/
theorem mergeLoop_id (values : List (String × Json)) (base : Json) :
    ∀ fields : List FieldSpec,
      (∀ f ∈ fields, ∃ v, readPointer base f.pointer = .ok v ∧
        Json.lookupKey values f.id = some v ∧
        assertFieldValue f (some v) = .ok ()) →
      mergeLoop values base fields = .ok base := by
  intro fields
  induction fields with
  | nil => intro _; rfl
  | cons f rest ih =>
    intro hall
    obtain ⟨v, hrp, hlk, hassert⟩ := hall f (List.mem_cons_self f rest)
    have hrest := ih (fun g hg => hall g (List.mem_cons_of_mem f hg))
    cases v with
    | null =>
      simp only [mergeLoop, hlk, hassert]
      exact hrest
    | bool b =>
      have hw := readPointer_writePointer_id base f.pointer _ hrp
      simp only [mergeLoop, hlk, hassert, hw]
      exact hrest
    | num n =>
      have hw := readPointer_writePointer_id base f.pointer _ hrp
      simp only [mergeLoop, hlk, hassert, hw]
      exact hrest
    | str s =>
      have hw := readPointer_writePointer_id base f.pointer _ hrp
      simp only [mergeLoop, hlk, hassert, hw]
      exact hrest
    | arr items =>
      have hw := readPointer_writePointer_id base f.pointer _ hrp
      simp only [mergeLoop, hlk, hassert, hw]
      exact hrest
    | obj members =>
      have hw := readPointer_writePointer_id base f.pointer _ hrp
      simp only [mergeLoop, hlk, hassert, hw]
      exact hrest

/-- C5 amended: for a template that passes field-pointer validation and
whose current base values each satisfy their field declaration,
`merge(template, collect_current_values(template))` succeeds and returns
the base document (deep clone being the identity on JSON values). -/
theorem merge_collect_roundtrip (t : TemplateM)
    (hval : validateFieldPointers t = .ok ())
    (hassert : ∀ f ∈ t.fields, ∀ v,
      readPointer t.base_dashboard f.pointer = .ok v →
      assertFieldValue f (some v) = .ok ()) :
    ∃ cvs, collectCurrentValues t = .ok cvs ∧
      mergeTemplateValues t cvs = .ok t.base_dashboard := by
  obtain ⟨hnd, _, hreads⟩ :=
    validatePointersLoop_facts t.base_dashboard t.fields [] [] hval
  obtain ⟨cvs, hcol, hkeys, hlook⟩ := collectLoop_facts t.base_dashboard t.fields [] hreads
  refine ⟨cvs, hcol, ?_⟩
  have hknown : checkKnownIds (t.fields.map fun f => f.id) cvs = .ok () := by
    apply checkKnownIds_ok
    intro kv hkv
    rcases hkeys kv hkv with habs | hm
    · simp at habs
    · exact hm
  have hmerge : mergeLoop cvs t.base_dashboard t.fields = .ok t.base_dashboard := by
    apply mergeLoop_id
    intro f hf
    obtain ⟨v, hv⟩ := hreads f hf
    exact ⟨v, hv, hlook hnd f hf v hv, hassert f hf v hv⟩
  unfold mergeTemplateValues
  rw [hknown]
  exact hmerge

/-- No path diverges from the empty path. -/
theorem pathsDiverge_nil_right : ∀ q : List String, pathsDiverge q [] = false := by
  intro q
  cases q <;> rfl

/-- A successful write implies the written path resolved beforehand: the
final token named an existing key or in-range index. -/
theorem writeTokens_read_ok (p : String) :
    ∀ (ts : List String) (t : String) (doc doc2 v : Json),
      writeTokens p v doc t ts = .ok doc2 →
      ∃ old, readTokens p doc (t :: ts) = .ok old := by
  intro ts
  induction ts with
  | nil =>
    intro t doc doc2 v hw
    cases doc with
    | null => simp [writeTokens, writeLast] at hw
    | bool b => simp [writeTokens, writeLast] at hw
    | num n => simp [writeTokens, writeLast] at hw
    | str s => simp [writeTokens, writeLast] at hw
    | arr items =>
      by_cases hnum : isArrayIndex t
      · by_cases hlt : tokenToNat t < items.length
        · exact ⟨items.get ⟨tokenToNat t, hlt⟩,
            by simp [readTokens, hnum, hlt]⟩
        · simp [writeTokens, writeLast, hnum, hlt] at hw
      · simp [writeTokens, writeLast, hnum] at hw
    | obj members =>
      cases hlk : Json.lookupKey members t with
      | some w => exact ⟨w, by simp [readTokens, hlk]⟩
      | none => simp [writeTokens, writeLast, hlk] at hw
  | cons next rest ih =>
    intro t doc doc2 v hw
    cases doc with
    | null => simp [writeTokens] at hw
    | bool b => simp [writeTokens] at hw
    | num n => simp [writeTokens] at hw
    | str s => simp [writeTokens] at hw
    | arr items =>
      by_cases hnum : isArrayIndex t
      · by_cases hlt : tokenToNat t < items.length
        · simp only [writeTokens, hnum, Bool.not_true, Bool.false_eq_true,
            if_false, hlt, dif_pos] at hw
          cases hin : writeTokens p v (items.get ⟨tokenToNat t, hlt⟩) next rest with
          | error e => rw [hin] at hw; simp [Except.map] at hw
          | ok child =>
            obtain ⟨old, hr⟩ := ih next _ child v hin
            refine ⟨old, ?_⟩
            simp [readTokens, hnum, hlt] at hr ⊢
            exact hr
        · simp [writeTokens, hnum, hlt] at hw
      · simp [writeTokens, hnum] at hw
    | obj members =>
      cases hlk : Json.lookupKey members t with
      | some w =>
        simp only [writeTokens, hlk] at hw
        cases hin : writeTokens p v w next rest with
        | error e => rw [hin] at hw; simp [Except.map] at hw
        | ok child =>
          obtain ⟨old, hr⟩ := ih next w child v hin
          refine ⟨old, ?_⟩
          simp [readTokens, hlk] at hr ⊢
          exact hr
      | none => simp [writeTokens, hlk] at hw

/-- After a successful write, reading the written path yields the new
value. -/
theorem writeTokens_read_new (p : String) :
    ∀ (ts : List String) (t : String) (doc doc2 v : Json),
      writeTokens p v doc t ts = .ok doc2 →
      readTokens p doc2 (t :: ts) = .ok v := by
  intro ts
  induction ts with
  | nil =>
    intro t doc doc2 v hw
    cases doc with
    | null => simp [writeTokens, writeLast] at hw
    | bool b => simp [writeTokens, writeLast] at hw
    | num n => simp [writeTokens, writeLast] at hw
    | str s => simp [writeTokens, writeLast] at hw
    | arr items =>
      by_cases hnum : isArrayIndex t
      · by_cases hlt : tokenToNat t < items.length
        · simp only [writeTokens, writeLast, hnum, Bool.not_true,
            Bool.false_eq_true, if_false, if_pos hlt, Except.ok.injEq] at hw
          subst hw
          have hlt2 : tokenToNat t < (items.set (tokenToNat t) v).length := by
            simpa using hlt
          simp [readTokens, hnum, hlt2, hlt]
        · simp [writeTokens, writeLast, hnum, hlt] at hw
      · simp [writeTokens, writeLast, hnum] at hw
    | obj members =>
      cases hlk : Json.lookupKey members t with
      | some w =>
        simp only [writeTokens, writeLast, hlk, Except.ok.injEq] at hw
        subst hw
        have hlk2 := lookupKey_setKey_self members t v w hlk
        simp [readTokens, hlk2]
      | none => simp [writeTokens, writeLast, hlk] at hw
  | cons next rest ih =>
    intro t doc doc2 v hw
    cases doc with
    | null => simp [writeTokens] at hw
    | bool b => simp [writeTokens] at hw
    | num n => simp [writeTokens] at hw
    | str s => simp [writeTokens] at hw
    | arr items =>
      by_cases hnum : isArrayIndex t
      · by_cases hlt : tokenToNat t < items.length
        · simp only [writeTokens, hnum, Bool.not_true, Bool.false_eq_true,
            if_false, hlt, dif_pos] at hw
          cases hin : writeTokens p v (items.get ⟨tokenToNat t, hlt⟩) next rest with
          | error e => rw [hin] at hw; simp [Except.map] at hw
          | ok child =>
            rw [hin] at hw
            simp only [Except.map, Except.ok.injEq] at hw
            subst hw
            have hr := ih next _ child v hin
            have hlt2 : tokenToNat t < (items.set (tokenToNat t) child).length := by
              simpa using hlt
            simp [readTokens, hnum, hlt2, hlt] at hr ⊢
            exact hr
        · simp [writeTokens, hnum, hlt] at hw
      · simp [writeTokens, hnum] at hw
    | obj members =>
      cases hlk : Json.lookupKey members t with
      | some w =>
        simp only [writeTokens, hlk] at hw
        cases hin : writeTokens p v w next rest with
        | error e => rw [hin] at hw; simp [Except.map] at hw
        | ok child =>
          rw [hin] at hw
          simp only [Except.map, Except.ok.injEq] at hw
          subst hw
          have hr := ih next w child v hin
          have hlk2 := lookupKey_setKey_self members t child w hlk
          simp [readTokens, hlk2] at hr ⊢
          exact hr
      | none => simp [writeTokens, hlk] at hw

/-- Tokens that are apart differ as strings and, when both numeric, as
decoded indices. -/
theorem tokenApart_facts (u t : String) (h : tokenApart u t = true) :
    u ≠ t ∧ (isArrayIndex u = true → isArrayIndex t = true →
      tokenToNat u ≠ tokenToNat t) := by
  unfold tokenApart at h
  rw [Bool.and_eq_true] at h
  obtain ⟨h1, h2⟩ := h
  constructor
  · simpa using h1
  · intro hu ht
    rw [Bool.or_eq_true] at h2
    rcases h2 with hcase | hcase
    · rw [hu, ht] at hcase
      simp at hcase
    · simpa using hcase

/-- A successful write preserves the shape — array length or object key
list — of every container along the written path above the final slot. -/
theorem writeTokens_shape_prefix (p : String) :
    ∀ (ts : List String) (t : String) (doc doc2 v : Json),
      writeTokens p v doc t ts = .ok doc2 →
      ∀ q, isPathLe q (t :: ts) = true → q ≠ t :: ts →
        (readTokens p doc2 q).map Json.topShape =
          (readTokens p doc q).map Json.topShape := by
  intro ts
  induction ts with
  | nil =>
    intro t doc doc2 v hw q hle hne
    cases q with
    | nil =>
      cases doc with
      | null => simp [writeTokens, writeLast] at hw
      | bool b => simp [writeTokens, writeLast] at hw
      | num n => simp [writeTokens, writeLast] at hw
      | str s => simp [writeTokens, writeLast] at hw
      | arr items =>
        by_cases hnum : isArrayIndex t
        · by_cases hlt : tokenToNat t < items.length
          · simp only [writeTokens, writeLast, hnum, Bool.not_true,
              Bool.false_eq_true, if_false, if_pos hlt, Except.ok.injEq] at hw
            subst hw
            simp [readTokens, Json.topShape, Except.map]
          · simp [writeTokens, writeLast, hnum, hlt] at hw
        · simp [writeTokens, writeLast, hnum] at hw
      | obj members =>
        cases hlk : Json.lookupKey members t with
        | some w =>
          simp only [writeTokens, writeLast, hlk, Except.ok.injEq] at hw
          subst hw
          simp [readTokens, Json.topShape, Except.map, setKey_keys]
        | none => simp [writeTokens, writeLast, hlk] at hw
    | cons u us =>
      simp only [isPathLe, Bool.and_eq_true, beq_iff_eq] at hle
      obtain ⟨hut, hus⟩ := hle
      subst hut
      cases us with
      | nil => exact absurd rfl hne
      | cons x xs => simp [isPathLe] at hus
  | cons next rest ih =>
    intro t doc doc2 v hw q hle hne
    cases q with
    | nil =>
      cases doc with
      | null => simp [writeTokens] at hw
      | bool b => simp [writeTokens] at hw
      | num n => simp [writeTokens] at hw
      | str s => simp [writeTokens] at hw
      | arr items =>
        by_cases hnum : isArrayIndex t
        · by_cases hlt : tokenToNat t < items.length
          · simp only [writeTokens, hnum, Bool.not_true, Bool.false_eq_true,
              if_false, hlt, dif_pos] at hw
            cases hin : writeTokens p v (items.get ⟨tokenToNat t, hlt⟩) next rest with
            | error e => rw [hin] at hw; simp [Except.map] at hw
            | ok child =>
              rw [hin] at hw
              simp only [Except.map, Except.ok.injEq] at hw
              subst hw
              simp [readTokens, Json.topShape, Except.map]
          · simp [writeTokens, hnum, hlt] at hw
        · simp [writeTokens, hnum] at hw
      | obj members =>
        cases hlk : Json.lookupKey members t with
        | some w =>
          simp only [writeTokens, hlk] at hw
          cases hin : writeTokens p v w next rest with
          | error e => rw [hin] at hw; simp [Except.map] at hw
          | ok child =>
            rw [hin] at hw
            simp only [Except.map, Except.ok.injEq] at hw
            subst hw
            simp [readTokens, Json.topShape, Except.map, setKey_keys]
        | none => simp [writeTokens, hlk] at hw
    | cons u us =>
      simp only [isPathLe, Bool.and_eq_true, beq_iff_eq] at hle
      obtain ⟨hut, hus⟩ := hle
      subst hut
      have husne : us ≠ next :: rest := by
        intro he
        exact hne (by rw [he])
      cases doc with
      | null => simp [writeTokens] at hw
      | bool b => simp [writeTokens] at hw
      | num n => simp [writeTokens] at hw
      | str s => simp [writeTokens] at hw
      | arr items =>
        by_cases hnum : isArrayIndex u
        · by_cases hlt : tokenToNat u < items.length
          · simp only [writeTokens, hnum, Bool.not_true, Bool.false_eq_true,
              if_false, hlt, dif_pos] at hw
            cases hin : writeTokens p v (items.get ⟨tokenToNat u, hlt⟩) next rest with
            | error e => rw [hin] at hw; simp [Except.map] at hw
            | ok child =>
              rw [hin] at hw
              simp only [Except.map, Except.ok.injEq] at hw
              subst hw
              have hrec := ih next (items.get ⟨tokenToNat u, hlt⟩) child v hin us hus husne
              have hlt2 : tokenToNat u < (items.set (tokenToNat u) child).length := by
                simpa using hlt
              simp [readTokens, hnum, hlt, hlt2] at hrec ⊢
              exact hrec
          · simp [writeTokens, hnum, hlt] at hw
        · simp [writeTokens, hnum] at hw
      | obj members =>
        cases hlk : Json.lookupKey members u with
        | some w =>
          simp only [writeTokens, hlk] at hw
          cases hin : writeTokens p v w next rest with
          | error e => rw [hin] at hw; simp [Except.map] at hw
          | ok child =>
            rw [hin] at hw
            simp only [Except.map, Except.ok.injEq] at hw
            subst hw
            have hrec := ih next w child v hin us hus husne
            have hlk2 := lookupKey_setKey_self members u child w hlk
            simp [readTokens, hlk, hlk2] at hrec ⊢
            exact hrec
        | none => simp [writeTokens, hlk] at hw

/-- A successful write leaves every diverging path reading exactly as
before. -/
theorem writeTokens_frame_diverge (p : String) :
    ∀ (ts : List String) (t : String) (doc doc2 v : Json),
      writeTokens p v doc t ts = .ok doc2 →
      ∀ q, pathsDiverge q (t :: ts) = true →
        readTokens p doc2 q = readTokens p doc q := by
  intro ts
  induction ts with
  | nil =>
    intro t doc doc2 v hw q hdiv
    cases q with
    | nil => simp [pathsDiverge] at hdiv
    | cons u us =>
      simp only [pathsDiverge, Bool.or_eq_true, Bool.and_eq_true,
        beq_iff_eq] at hdiv
      rcases hdiv with hap | ⟨hut, hdus⟩
      · obtain ⟨hne, hnumcase⟩ := tokenApart_facts u t hap
        cases doc with
        | null => simp [writeTokens, writeLast] at hw
        | bool b => simp [writeTokens, writeLast] at hw
        | num n => simp [writeTokens, writeLast] at hw
        | str s => simp [writeTokens, writeLast] at hw
        | arr items =>
          by_cases hnum : isArrayIndex t
          · by_cases hlt : tokenToNat t < items.length
            · simp only [writeTokens, writeLast, hnum, Bool.not_true,
                Bool.false_eq_true, if_false, if_pos hlt, Except.ok.injEq] at hw
              subst hw
              by_cases hnu : isArrayIndex u
              · have hidx : tokenToNat u ≠ tokenToNat t := hnumcase hnu hnum
                by_cases hltu : tokenToNat u < items.length
                · have hltu2 : tokenToNat u < (items.set (tokenToNat t) v).length := by
                    simpa using hltu
                  simp [readTokens, hnu, hltu, hltu2,
                    List.getElem_set_of_ne (Ne.symm hidx)]
                · have hltu2 : ¬ tokenToNat u < (items.set (tokenToNat t) v).length := by
                    simpa using hltu
                  simp [readTokens, hnu, hltu, hltu2]
              · simp [readTokens, hnu]
            · simp [writeTokens, writeLast, hnum, hlt] at hw
          · simp [writeTokens, writeLast, hnum] at hw
        | obj members =>
          cases hlk : Json.lookupKey members t with
          | some w =>
            simp only [writeTokens, writeLast, hlk, Except.ok.injEq] at hw
            subst hw
            have hlu := lookupKey_setKey_ne members u t v hne
            simp only [readTokens, hlu]
          | none => simp [writeTokens, writeLast, hlk] at hw
      · rw [pathsDiverge_nil_right] at hdus
        cases hdus
  | cons next rest ih =>
    intro t doc doc2 v hw q hdiv
    cases q with
    | nil => simp [pathsDiverge] at hdiv
    | cons u us =>
      simp only [pathsDiverge, Bool.or_eq_true, Bool.and_eq_true,
        beq_iff_eq] at hdiv
      rcases hdiv with hap | ⟨hut, hdus⟩
      · obtain ⟨hne, hnumcase⟩ := tokenApart_facts u t hap
        cases doc with
        | null => simp [writeTokens] at hw
        | bool b => simp [writeTokens] at hw
        | num n => simp [writeTokens] at hw
        | str s => simp [writeTokens] at hw
        | arr items =>
          by_cases hnum : isArrayIndex t
          · by_cases hlt : tokenToNat t < items.length
            · simp only [writeTokens, hnum, Bool.not_true, Bool.false_eq_true,
                if_false, hlt, dif_pos] at hw
              cases hin : writeTokens p v (items.get ⟨tokenToNat t, hlt⟩) next rest with
              | error e => rw [hin] at hw; simp [Except.map] at hw
              | ok child =>
                rw [hin] at hw
                simp only [Except.map, Except.ok.injEq] at hw
                subst hw
                by_cases hnu : isArrayIndex u
                · have hidx : tokenToNat u ≠ tokenToNat t := hnumcase hnu hnum
                  by_cases hltu : tokenToNat u < items.length
                  · have hltu2 : tokenToNat u < (items.set (tokenToNat t) child).length := by
                      simpa using hltu
                    simp [readTokens, hnu, hltu, hltu2,
                      List.getElem_set_of_ne (Ne.symm hidx)]
                  · have hltu2 : ¬ tokenToNat u < (items.set (tokenToNat t) child).length := by
                      simpa using hltu
                    simp [readTokens, hnu, hltu, hltu2]
                · simp [readTokens, hnu]
            · simp [writeTokens, hnum, hlt] at hw
          · simp [writeTokens, hnum] at hw
        | obj members =>
          cases hlk : Json.lookupKey members t with
          | some w =>
            simp only [writeTokens, hlk] at hw
            cases hin : writeTokens p v w next rest with
            | error e => rw [hin] at hw; simp [Except.map] at hw
            | ok child =>
              rw [hin] at hw
              simp only [Except.map, Except.ok.injEq] at hw
              subst hw
              have hlu := lookupKey_setKey_ne members u t child hne
              simp only [readTokens, hlu]
          | none => simp [writeTokens, hlk] at hw
      · subst hut
        cases doc with
        | null => simp [writeTokens] at hw
        | bool b => simp [writeTokens] at hw
        | num n => simp [writeTokens] at hw
        | str s => simp [writeTokens] at hw
        | arr items =>
          by_cases hnum : isArrayIndex u
          · by_cases hlt : tokenToNat u < items.length
            · simp only [writeTokens, hnum, Bool.not_true, Bool.false_eq_true,
                if_false, hlt, dif_pos] at hw
              cases hin : writeTokens p v (items.get ⟨tokenToNat u, hlt⟩) next rest with
              | error e => rw [hin] at hw; simp [Except.map] at hw
              | ok child =>
                rw [hin] at hw
                simp only [Except.map, Except.ok.injEq] at hw
                subst hw
                have hrec := ih next (items.get ⟨tokenToNat u, hlt⟩) child v hin us hdus
                have hlt2 : tokenToNat u < (items.set (tokenToNat u) child).length := by
                  simpa using hlt
                simp [readTokens, hnum, hlt, hlt2] at hrec ⊢
                exact hrec
            · simp [writeTokens, hnum, hlt] at hw
          · simp [writeTokens, hnum] at hw
        | obj members =>
          cases hlk : Json.lookupKey members u with
          | some w =>
            simp only [writeTokens, hlk] at hw
            cases hin : writeTokens p v w next rest with
            | error e => rw [hin] at hw; simp [Except.map] at hw
            | ok child =>
              rw [hin] at hw
              simp only [Except.map, Except.ok.injEq] at hw
              subst hw
              have hrec := ih next w child v hin us hdus
              have hlk2 := lookupKey_setKey_self members u child w hlk
              simp [readTokens, hlk, hlk2] at hrec ⊢
              exact hrec
          | none => simp [writeTokens, hlk] at hw

/-- C5 counterexample: a valid template (unique ids and pointers, every
pointer resolving) whose base value at a field pointer does not match the
declared field type makes `merge(template, collect_current_values)` fail
with a type error instead of returning the base document. -/
theorem merge_collect_type_mismatch :
    validateFieldPointers
      (TemplateM.mk "t" "" (.obj [("x", .num 42)])
        [{ id := "f", pointer := "/x", type := .string }]) = .ok () ∧
    collectCurrentValues
      (TemplateM.mk "t" "" (.obj [("x", .num 42)])
        [{ id := "f", pointer := "/x", type := .string }]) = .ok [("f", .num 42)] ∧
    mergeTemplateValues
      (TemplateM.mk "t" "" (.obj [("x", .num 42)])
        [{ id := "f", pointer := "/x", type := .string }]) [("f", .num 42)] =
      .error ("field " ++ "f" ++ " expects string") :=
  ⟨rfl, rfl, rfl⟩

/-- Witness for C5: a one-field template over a matching string value
round-trips to its base document. -/
theorem merge_collect_roundtrip_witness :
    ∃ cvs, collectCurrentValues
        (TemplateM.mk "t" "" (.obj [("s", .str "old")])
          [{ id := "f", pointer := "/s", type := .string }]) = .ok cvs ∧
      mergeTemplateValues
        (TemplateM.mk "t" "" (.obj [("s", .str "old")])
          [{ id := "f", pointer := "/s", type := .string }]) cvs =
        .ok (.obj [("s", .str "old")]) := by
  apply merge_collect_roundtrip
  · rfl
  · intro f hf v hv
    simp only [List.mem_singleton] at hf
    subst hf
    have h0 : readPointer (Json.obj [("s", Json.str "old")]) "/s" =
        .ok (.str "old") := rfl
    rw [h0] at hv
    injection hv with h2
    subst h2
    rfl

/-- C9 counterexample: a successful write that replaces a one-element
array by a two-element array changes an array length in the document, so
key sets and array lengths are not unchanged in general — only the
containers outside the replaced subtree are. -/
theorem write_replaces_subtree_shape :
    writePointer (.obj [("a", .arr [.num 1])]) "/a" (.arr [.num 1, .num 2]) =
      .ok (.obj [("a", .arr [.num 1, .num 2])]) ∧
    (readPointer (.obj [("a", .arr [.num 1])]) "/a").map Json.topShape =
      .ok (.arrayLen 1) ∧
    (readPointer (.obj [("a", .arr [.num 1, .num 2])]) "/a").map Json.topShape =
      .ok (.arrayLen 2) ∧
    TopShape.arrayLen 1 ≠ TopShape.arrayLen 2 :=
  ⟨rfl, rfl, rfl, by decide⟩

/-- C9 amended: a successful pointer write requires the final token to
resolve to an existing object key or in-range array index; it replaces
exactly the subtree at the pointer — the written path reads back the new
value, every container above the final slot keeps its key list or array
length, and every diverging path reads unchanged. -/
theorem write_requires_existing_slot (doc doc2 v : Json) (ptr : String)
    (t : String) (ts : List String)
    (hparse : parsePointer ptr = .ok (t :: ts))
    (hw : writePointer doc ptr v = .ok doc2) :
    (∃ old, readPointer doc ptr = .ok old) ∧
    readPointer doc2 ptr = .ok v ∧
    (∀ q, isPathLe q (t :: ts) = true → q ≠ t :: ts →
      (readTokens ptr doc2 q).map Json.topShape =
        (readTokens ptr doc q).map Json.topShape) ∧
    (∀ q, pathsDiverge q (t :: ts) = true →
      readTokens ptr doc2 q = readTokens ptr doc q) := by
  unfold writePointer at hw
  rw [hparse] at hw
  unfold readPointer
  rw [hparse]
  exact ⟨writeTokens_read_ok ptr ts t doc doc2 v hw,
    writeTokens_read_new ptr ts t doc doc2 v hw,
    writeTokens_shape_prefix ptr ts t doc doc2 v hw,
    writeTokens_frame_diverge ptr ts t doc doc2 v hw⟩

/-- Witness for C9: overwriting the number at `/a` in a one-key object. -/
theorem write_requires_existing_slot_witness :
    (∃ old, readPointer (Json.obj [("a", .num 1)]) "/a" = .ok old) ∧
    readPointer (Json.obj [("a", .num 5)]) "/a" = .ok (.num 5) ∧
    (∀ q, isPathLe q ["a"] = true → q ≠ ["a"] →
      (readTokens "/a" (Json.obj [("a", .num 5)]) q).map Json.topShape =
        (readTokens "/a" (Json.obj [("a", .num 1)]) q).map Json.topShape) ∧
    (∀ q, pathsDiverge q ["a"] = true →
      readTokens "/a" (Json.obj [("a", .num 5)]) q =
        readTokens "/a" (Json.obj [("a", .num 1)]) q) :=
  write_requires_existing_slot (Json.obj [("a", .num 1)])
    (Json.obj [("a", .num 5)]) (.num 5) "/a" "a" [] rfl rfl
end Plashboard
